import Mathlib

/-!
Verification of the crawl/extraction/classification/retrieval pipeline of the
`chatbot` repository (backend-python).  Python code is shallowly embedded:
strings are `List Char`, Python `float` confidences/distances are `ℚ`
(the code only compares them, never does float-specific arithmetic),
external collaborators (HTTP fetch, BeautifulSoup, the scikit-learn model,
the Gemini backend, MD5) are function parameters, and everything written in
the repository itself (keyword tables, regex patterns, control flow) is
translated directly from the source.
-/

namespace Chatbot

/-- Strings are modelled as lists of characters. -/
abbrev Str := List Char

/-- Python `str.lower()`. -/
def lowerStr (s : Str) : Str := s.map Char.toLower

/-- Python `str.upper()`. -/
def upperStr (s : Str) : Str := s.map Char.toUpper

/-- `strStarts pat s` : does `s` start with `pat`. -/
def strStarts : Str → Str → Bool
  | [], _ => true
  | _ :: _, [] => false
  | p :: ps, c :: cs => p = c && strStarts ps cs

/-- Python substring test `pat in s`. -/
def strHas (pat : Str) : Str → Bool
  | [] => pat.isEmpty
  | c :: cs => strStarts pat (c :: cs) || strHas pat cs

/-- Python `s.endswith(suf)`. -/
def strEnds (suf s : Str) : Bool := strStarts suf.reverse s.reverse

/-- Python `s.endswith((a, b, ...))` : any suffix of the tuple matches. -/
def strEndsAny (sufs : List Str) (s : Str) : Bool := sufs.any (fun t => strEnds t s)

/-! ### Rational arithmetic helpers

Python float confidences/distances are modelled in `ℚ`.  The ambient
library's `Rat.add`/`Rat.mul` are marked irreducible, which blocks `decide`
on concrete values, so the embedding computes through `Rat.divInt`; the
lemmas `pyAdd_eq`, `pyMul_eq`, `pyDiv_eq` and `pySum_eq` identify these
helpers with the standard field operations, and theorem statements use the
standard operations. -/

/-- Addition on `ℚ` via `Rat.divInt` (equal to `+` by `pyAdd_eq`). -/
def pyAdd (a b : ℚ) : ℚ := Rat.divInt (a.num * b.den + b.num * a.den) (a.den * b.den)

/-- Multiplication on `ℚ` via `Rat.divInt` (equal to `*` by `pyMul_eq`). -/
def pyMul (a b : ℚ) : ℚ := Rat.divInt (a.num * b.num) (a.den * b.den)

/-- Division on `ℚ` via `Rat.divInt` (equal to `/` by `pyDiv_eq`). -/
def pyDiv (a b : ℚ) : ℚ := Rat.divInt (a.num * b.den) (a.den * b.num)

/-- Python `sum` over a rational list (equal to `List.sum` by `pySum_eq`). -/
def pySum (l : List ℚ) : ℚ := l.foldl pyAdd 0

/-- Stable insertion of `x` before the first element `y` with `¬ le x y`. -/
def insSorted (le : α → α → Bool) (x : α) : List α → List α
  | [] => [x]
  | y :: ys => if le x y then x :: y :: ys else y :: insSorted le x ys

/-- Stable insertion sort; models Python's stable `list.sort` / `sorted`. -/
def insSort (le : α → α → Bool) : List α → List α
  | [] => []
  | x :: xs => insSorted le x (insSort le xs)

/-! ## Priority scorer (`app/routes/scraping.py`, `HIGH_PRIORITY_PATTERNS`,
`calculate_page_priority`) -/

/-- `HIGH_PRIORITY_PATTERNS` of `scraping.py` (category, keywords, weight). -/
def HIGH_PRIORITY_PATTERNS : List (Str × List Str × Nat) :=
  [ ("placements".data,
      ["placement".data, "training-and-placement".data, "tpoffice".data, "career".data,
       "recruitment".data, "placed".data, "recruiter".data, "tpo".data,
       "campus-placement".data, "job".data, "internship".data, "corporate".data,
       "industry".data, "package".data, "offer".data], 150),
    ("admissions".data,
      ["admission".data, "admissions".data, "enroll".data, "join".data, "apply".data,
       "intake".data, "how-to-apply".data], 100),
    ("autonomous".data,
      ["autonomous".data, "autonomy".data, "regulation".data, "syllabus".data,
       "curriculum".data], 90),
    ("hostel".data,
      ["hostel".data, "accommodation".data, "residence".data, "dormitory".data,
       "hostel-facility".data], 85),
    ("faculty".data,
      ["faculty".data, "staff".data, "teachers".data, "professors".data, "hod".data,
       "faculty-profile".data], 80),
    ("circulars".data,
      ["circular".data, "notification".data, "notice".data, "announcement".data,
       "latest".data], 75) ]

/-- `calculate_page_priority(url, title)` : sum of the weights of every
category one of whose keywords occurs in `(url + ' ' + title).lower()`. -/
def calculate_page_priority (url title : Str) : Nat :=
  let text := lowerStr (url ++ ' ' :: title)
  (HIGH_PRIORITY_PATTERNS.map
    (fun e => if (e.2.1).any (fun k => strHas k text) then e.2.2 else 0)).sum

/-! ## Content classifier (`app/ml/content_classifier.py`) -/

/-- `ContentClassifier.CATEGORIES` : the five keyword lists. -/
def CLASSIFIER_CATEGORIES : List (Str × List Str) :=
  [ ("placement".data,
      ["placement".data, "job".data, "recruitment".data, "interview".data,
       "company".data, "hiring".data, "career".data, "campus drive".data,
       "off-campus".data, "internship".data, "offer".data, "package".data,
       "ctc".data, "lpa".data, "selected".data, "shortlisted".data, "ppo".data,
       "recruit".data, "placed".data, "recruiting".data, "recruiter".data,
       "hr".data, "human resource".data, "salary".data, "lakhs".data,
       "compensation".data, "benefits".data, "joining".data, "campus hire".data,
       "pool campus".data, "super dream".data, "dream".data, "placement cell".data,
       "placement office".data, "placement drive".data, "highest package".data,
       "average package".data, "companies visited".data, "pre-placement".data,
       "ppt".data, "written test".data, "group discussion".data,
       "technical round".data, "hr round".data, "shortlist".data, "eligible".data]),
    ("event".data,
      ["event".data, "workshop".data, "seminar".data, "webinar".data,
       "conference".data, "symposium".data, "fest".data, "celebration".data,
       "competition".data, "hackathon".data, "cultural".data, "sports".data,
       "tech fest".data, "cultural fest".data, "annual day".data, "function".data,
       "ceremony".data, "inauguration".data, "guest lecture".data, "talk".data,
       "felicitation".data]),
    ("examination".data,
      ["exam".data, "examination".data, "test".data, "assessment".data, "quiz".data,
       "mid-term".data, "end-sem".data, "semester exam".data, "internal".data,
       "cie".data, "see".data, "viva".data, "practical exam".data,
       "hall ticket".data, "admit card".data, "exam schedule".data,
       "revaluation".data, "supplementary".data, "results".data, "marks".data,
       "grade".data]),
    ("holiday".data,
      ["holiday".data, "vacation".data, "leave".data, "off".data, "closed".data,
       "reopen".data, "reopening".data, "semester break".data, "festive".data,
       "public holiday".data, "national holiday".data, "festival".data]),
    ("document".data,
      ["download".data, "pdf".data, "form".data, "application".data,
       "document".data, "certificate".data, "bonafide".data, "transcript".data,
       "marksheet".data, "syllabus".data, "timetable".data, "circular".data,
       "notice".data, "upload".data, "submit".data]) ]

/-- `ContentClassifier.keyword_based_classification` : count keyword hits per
category, return the first category with the maximal count (Python `max` over
the dict keeps the earliest maximum) with confidence `min(score/10, 1.0)`,
or `("announcement", 0.3)` when nothing matched. -/
def keyword_based_classification (text : Str) : Str × ℚ :=
  let tl := lowerStr text
  let scores : List (Str × Nat) :=
    CLASSIFIER_CATEGORIES.map
      (fun e => (e.1, (e.2.filter (fun k => strHas k tl)).length))
  let best : Str × Nat :=
    match scores with
    | [] => ("announcement".data, 0)
    | s :: rest => rest.foldl (fun b x => if x.2 > b.2 then x else b) s
  if best.2 = 0 then ("announcement".data, Rat.divInt 3 10)
  else (best.1, min (pyDiv (best.2 : ℚ) 10) 1)

/-- Result of `ContentClassifier.classify` (the `scores` sub-dict, which only
echoes the two inputs, is omitted). -/
structure ClassifyResult where
  category : Str
  confidence : ℚ
  method : Str
deriving DecidableEq

/-- Model of `ContentClassifier.classify_with_sklearn`.  The trained
scikit-learn model is external and abstracted as
`Option (Str → Option (Str × ℚ))` : `none` means no trained model was loaded;
a prediction returning `none` models the exception path inside
`classify_with_sklearn`.  Both fall back to keyword classification, as in the
source. -/
def classify_with_sklearn (model : Option (Str → Option (Str × ℚ))) (text : Str) :
    Str × ℚ :=
  match model with
  | none => keyword_based_classification text
  | some f =>
    match f text with
    | some r => r
    | none => keyword_based_classification text

/-- `ContentClassifier.classify(text, title)` : title doubled for weight, then
keyword classification always, sklearn when a model is present, combined by the
ensemble rule of the source (agree → average the confidences, tag
`hybrid_ensemble`; disagree → the higher-confidence result, tagged `sklearn`
or `keyword`; no model → `keyword_only`). -/
def classify (model : Option (Str → Option (Str × ℚ))) (text title : Str) :
    ClassifyResult :=
  let combined := title ++ ' ' :: title ++ ' ' :: text
  let kw := keyword_based_classification combined
  match model with
  | some _ =>
    let sk := classify_with_sklearn model combined
    if kw.1 = sk.1 then ⟨kw.1, pyDiv (pyAdd kw.2 sk.2) 2, "hybrid_ensemble".data⟩
    else if sk.2 > kw.2 then ⟨sk.1, sk.2, "sklearn".data⟩
    else ⟨kw.1, kw.2, "keyword".data⟩
  | none => ⟨kw.1, kw.2, "keyword_only".data⟩

/-! ## URL normalizer (`app/routes/scraping.py`, `normalize_url`)

`normalize_url` is built on the standard library's `urllib.parse.urlparse` /
`urlunparse` (external collaborators).  They are modelled below following
CPython's algorithm (`urlsplit` / `urlunsplit` / `_splitparams`): scheme
detection at the first `':'` with an alphabetic first character and scheme
characters only, netloc after a leading `"//"` up to the first `/?#`,
fragment split at the first `'#'`, query at the first `'?'`, and path
parameters split at the first `';'` after the last `'/'`.  The byte-cleaning
pre-pass of recent CPython (removal of tab/CR/LF, stripping of leading
control characters) is external sanitation and not modelled; URLs here are
taken as already cleaned. -/

/-- The six components produced by `urllib.parse.urlparse`. -/
structure UrlComps where
  scheme : Str
  netloc : Str
  path : Str
  params : Str
  query : Str
  fragment : Str
deriving DecidableEq

/-- Characters allowed in a URL scheme (`urllib.parse.scheme_chars`). -/
def schemeChar (c : Char) : Bool :=
  c.isAlpha || c.isDigit || c = '+' || c = '-' || c = '.'

/-- Split a list at the first occurrence of `t` :
`splitFirst? t l = some (a, b)` iff `l = a ++ t :: b` with `t ∉ a`. -/
def splitFirst? (t : Char) : Str → Option (Str × Str)
  | [] => none
  | c :: s =>
    if c = t then some ([], s)
    else (splitFirst? t s).map (fun p => (c :: p.1, p.2))

/-- Scheme detection of `urlsplit` : the text before the first `':'` is a
scheme iff it is nonempty, starts with a letter and consists of scheme
characters; the scheme is lowercased. -/
def schemeSplit (u : Str) : Option (Str × Str) :=
  match splitFirst? ':' u with
  | none => none
  | some (pre, rest) =>
    match pre with
    | [] => none
    | c :: _ =>
      if c.isAlpha && pre.all schemeChar then some (lowerStr pre, rest) else none

/-- A netloc character is anything but `/`, `?`, `#` (`_splitnetloc`). -/
def netlocChar (c : Char) : Bool := c ≠ '/' && c ≠ '?' && c ≠ '#'

/-- Netloc extraction of `urlsplit` : after a leading `"//"`, up to the first
of `/?#`. -/
def netlocSplit (u : Str) : Str × Str :=
  match u with
  | '/' :: '/' :: rest => (rest.takeWhile netlocChar, rest.dropWhile netlocChar)
  | _ => ([], u)

/-- `_splitparams` (as guarded by `urlparse`): no split when `';'` is absent;
otherwise split at the first `';'` after the last `'/'` (or at the first `';'`
when there is no `'/'`). -/
def paramsSplit (p : Str) : Str × Str :=
  if ';' ∈ p then
    if '/' ∈ p then
      match splitFirst? '/' p.reverse with
      | some (revTail, revInit) =>
        -- p = revInit.reverse ++ '/' :: revTail.reverse, with no '/' in the tail
        match splitFirst? ';' revTail.reverse with
        | some (a, b) => (revInit.reverse ++ '/' :: a, b)
        | none => (p, [])
      | none => (p, [])
    else
      match splitFirst? ';' p with
      | some (a, b) => (a, b)
      | none => (p, [])
  else (p, [])

/-- `urllib.parse.uses_params` : schemes whose URLs carry path parameters
(the empty scheme is included, so scheme-less URLs split params). -/
def uses_params : List Str :=
  [[], "ftp".data, "hdl".data, "prospero".data, "http".data, "imap".data,
   "https".data, "shttp".data, "rtsp".data, "rtsps".data, "rtspu".data,
   "sip".data, "sips".data, "mms".data, "sftp".data, "tel".data]

/-- The scheme stage of `urlsplit` : the detected scheme (or `""`) and the
remainder of the URL. -/
def parseScheme (u : Str) : Str × Str :=
  match schemeSplit u with
  | some (s, rest) => (s, rest)
  | none => ([], u)

/-- The fragment stage of `urlsplit` : split at the first `'#'` when present. -/
def fragSplit (v : Str) : Str × Str :=
  match splitFirst? '#' v with
  | some (a, b) => (a, b)
  | none => (v, [])

/-- The query stage of `urlsplit` : split at the first `'?'` when present. -/
def querySplit (v : Str) : Str × Str :=
  match splitFirst? '?' v with
  | some (a, b) => (a, b)
  | none => (v, [])

/-- Model of `urllib.parse.urlparse` : scheme, then netloc, then fragment,
then query, then path parameters. -/
def urlparseModel (u : Str) : UrlComps :=
  let scheme := (parseScheme u).1
  let u1 := (parseScheme u).2
  let netloc := (netlocSplit u1).1
  let u2 := (netlocSplit u1).2
  let u3 := (fragSplit u2).1
  let fragment := (fragSplit u2).2
  let u4 := (querySplit u3).1
  let query := (querySplit u3).2
  let pp := if scheme ∈ uses_params then paramsSplit u4 else (u4, [])
  ⟨scheme, netloc, pp.1, pp.2, query, fragment⟩

/-- `urllib.parse.uses_netloc` : schemes whose URLs use a network location. -/
def uses_netloc : List Str :=
  [[], "ftp".data, "http".data, "gopher".data, "nntp".data, "telnet".data,
   "imap".data, "wais".data, "file".data, "mms".data, "https".data,
   "shttp".data, "snews".data, "prospero".data, "rtsp".data, "rtsps".data,
   "rtspu".data, "rsync".data, "svn".data, "svn+ssh".data, "sftp".data,
   "nfs".data, "git".data, "git+ssh".data, "ws".data, "wss".data]

/-- Model of `urllib.parse.urlunparse` (via `urlunsplit`): the `"//"` marker
is emitted when the netloc is nonempty, or when the scheme is a
`uses_netloc` scheme and the path does not already begin with `"//"`. -/
def urlunparseModel (c : UrlComps) : Str :=
  let u0 := if c.params ≠ [] then c.path ++ ';' :: c.params else c.path
  let u1 :=
    if c.netloc ≠ [] ∨ (c.scheme ≠ [] ∧ c.scheme ∈ uses_netloc ∧ u0.take 2 ≠ ['/', '/']) then
      let u0' := if u0 ≠ [] ∧ u0.take 1 ≠ ['/'] then '/' :: u0 else u0
      '/' :: '/' :: (c.netloc ++ u0')
    else u0
  let u2 := if c.scheme ≠ [] then c.scheme ++ ':' :: u1 else u1
  let u3 := if c.query ≠ [] then u2 ++ '?' :: c.query else u2
  if c.fragment ≠ [] then u3 ++ '#' :: c.fragment else u3

/-- Python `path.rstrip('/')`. -/
def rstripSlash (p : Str) : Str := (p.reverse.dropWhile (fun c => c = '/')).reverse

/-- The component transformation performed by `normalize_url` : lowercase
scheme and netloc, strip trailing slashes from the path keeping the root as
`"/"`, keep params and query, drop the fragment. -/
def normComps (c : UrlComps) : UrlComps :=
  { scheme := lowerStr c.scheme
    netloc := lowerStr c.netloc
    path := (fun p => if p = [] then ['/'] else p) (rstripSlash c.path)
    params := c.params
    query := c.query
    fragment := [] }

/-- `normalize_url(url)` of `scraping.py`. -/
def normalize_url (u : Str) : Str := urlunparseModel (normComps (urlparseModel u))

/-! ## Regex engine

Model of the parts of Python's `re` used by `documentExtractor.py` : ordered
alternation, greedy `?`, greedy `*`/`+` and lazy `+?` over character classes
(the only quantified sub-patterns in the repository's regexes), capturing
groups, lookahead `(?=...)` and `$`, with backtracking, leftmost-match
`search`, and non-overlapping `findall` returning capture groups.  Patterns
compiled with `re.IGNORECASE` are built from case-insensitive literals and
classes. -/

/-- Regular expressions, as used by the patterns of this repository. -/
inductive RE : Type where
  | eps : RE
  | cls (p : Char → Bool) : RE
  | seq (a b : RE) : RE
  | alt (a b : RE) : RE
  | opt (r : RE) : RE
  | starC (p : Char → Bool) : RE
  | plusC (p : Char → Bool) : RE
  | plusLC (p : Char → Bool) : RE
  | grp (n : Nat) (r : RE) : RE
  | look (r : RE) : RE
  | eosP : RE

/-- Captured groups: latest capture of each group number first. -/
abbrev Caps := List (Nat × Str)

/-- `group(n)`, defaulting to the empty string for an unset group (which is
what `findall` reports for a non-participating group). -/
def capGet (n : Nat) (cp : Caps) : Str :=
  ((cp.find? (fun e => e.1 = n)).map Prod.snd).getD []

/-- Greedy repetition of a character class: consume as many characters as
possible, backtracking one at a time when the continuation fails. -/
def starGreedy (p : Char → Bool) (k : Str → Caps → Option α) : Str → Caps → Option α
  | [], cp => k [] cp
  | c :: s, cp =>
    if p c then (starGreedy p k s cp).orElse (fun _ => k (c :: s) cp)
    else k (c :: s) cp

/-- Lazy one-or-more repetition of a character class: consume as few
characters as possible, extending only when the continuation fails. -/
def plusLazy (p : Char → Bool) (k : Str → Caps → Option α) : Str → Caps → Option α
  | [], _ => none
  | c :: s, cp =>
    if p c then (k s cp).orElse (fun _ => plusLazy p k s cp) else none

/-- Backtracking matcher in continuation-passing style; the first overall
success is returned, which is exactly Python's leftmost/backtracking rule. -/
def reMatch (re : RE) : {α : Type} → Str → Caps → (Str → Caps → Option α) → Option α :=
  match re with
  | .eps => fun s cp k => k s cp
  | .cls p => fun s cp k =>
    match s with
    | [] => none
    | c :: s' => if p c then k s' cp else none
  | .seq a b => fun s cp k => reMatch a s cp (fun s' cp' => reMatch b s' cp' k)
  | .alt a b => fun s cp k => (reMatch a s cp k).orElse (fun _ => reMatch b s cp k)
  | .opt r => fun s cp k => (reMatch r s cp k).orElse (fun _ => k s cp)
  | .starC p => fun s cp k => starGreedy p k s cp
  | .plusC p => fun s cp k =>
    match s with
    | [] => none
    | c :: s' => if p c then starGreedy p k s' cp else none
  | .plusLC p => fun s cp k => plusLazy p k s cp
  | .grp n r => fun s cp k =>
    reMatch r s cp (fun s' cp' => k s' ((n, s.take (s.length - s'.length)) :: cp'))
  | .look r => fun s cp k =>
    match reMatch r s cp (fun _ cp2 => some cp2) with
    | some cp2 => k s cp2
    | none => none
  | .eosP => fun s cp k => if s = [] ∨ s = ['\n'] then k s cp else none

/-- Match `re` at the start of `s`; returns the length of the match and the
captures. -/
def matchLen (re : RE) (s : Str) : Option (Nat × Caps) :=
  reMatch re s [] (fun rest cp => some (s.length - rest.length, cp))

/-- `re.search` : try each start position from the left; returns the whole
matched text (`group(0)`) and the captures. -/
def reSearchM (re : RE) : Str → Option (Str × Caps)
  | [] => (matchLen re []).map (fun m => ([], m.2))
  | c :: s' =>
    match matchLen re (c :: s') with
    | some (n, cp) => some ((c :: s').take n, cp)
    | none => reSearchM re s'

/-- Fueled worker for `reFindAll`; the fuel `s.length + 1` always suffices
since every step either consumes the match or advances one character. -/
def reFindAllGo (re : RE) : Nat → Str → List (Str × Caps)
  | 0, _ => []
  | fuel + 1, s =>
    match matchLen re s with
    | some (n, cp) =>
      if n = 0 then
        ([], cp) :: (match s with | [] => [] | _ :: s' => reFindAllGo re fuel s')
      else (s.take n, cp) :: reFindAllGo re fuel (s.drop n)
    | none =>
      match s with
      | [] => []
      | _ :: s' => reFindAllGo re fuel s'

/-- `re.findall` : non-overlapping matches scanning left to right. -/
def reFindAll (re : RE) (s : Str) : List (Str × Caps) :=
  reFindAllGo re (s.length + 1) s

/-- `findall` for a pattern with one capture group. -/
def findAll1 (re : RE) (s : Str) : List Str :=
  (reFindAll re s).map (fun m => capGet 1 m.2)

/-- `findall` for a pattern with two capture groups. -/
def findAll2 (re : RE) (s : Str) : List (Str × Str) :=
  (reFindAll re s).map (fun m => (capGet 1 m.2, capGet 2 m.2))

/-- Sequencing of a pattern list. -/
def catR (l : List RE) : RE := l.foldr .seq .eps

/-- Ordered alternation of a pattern list. -/
def altR : List RE → RE
  | [] => .cls (fun _ => false)
  | [r] => r
  | r :: rs => .alt r (altR rs)

/-- A literal character (case sensitive). -/
def chr (c : Char) : RE := .cls (fun x => x = c)

/-- A literal character under `re.IGNORECASE`. -/
def ichr (c : Char) : RE := .cls (fun x => x.toLower = c.toLower)

/-- A literal word under `re.IGNORECASE`. -/
def ilit (w : String) : RE := catR (w.data.map ichr)

/-- `\d`. -/
def digitC : RE := .cls Char.isDigit

/-- Python `\s` (ASCII). -/
def pyWs (c : Char) : Bool :=
  c = ' ' || c = '\t' || c = '\n' || c = '\r' || c = '\x0b' || c = '\x0c'

/-- `\s*`. -/
def ws0 : RE := .starC pyWs

/-- `\s+`. -/
def ws1 : RE := .plusC pyWs

/-- `X{n}` : a fixed repetition of a character class. -/
def repC (p : Char → Bool) (n : Nat) : RE := catR (List.replicate n (.cls p))

/-- `[:-]?`. -/
def optColonDash : RE := .opt (.cls (fun c => c = ':' || c = '-'))

/-! ## Placement pattern miner
(`app/services/documentExtractor.py`, `PLACEMENT_PATTERNS`,
`extract_placement_data`) -/

/-- `PLACEMENT_PATTERNS['package']` =
`(\d+\.?\d*)\s*(lpa|lakhs?|cr|crores?|ctc|per\s*annum)` (IGNORECASE). -/
def packageRE : RE :=
  catR [.grp 1 (catR [.plusC Char.isDigit, .opt (chr '.'), .starC Char.isDigit]), ws0,
        .grp 2 (altR [ilit "lpa", catR [ilit "lakh", .opt (ichr 's')], ilit "cr",
                      catR [ilit "crore", .opt (ichr 's')], ilit "ctc",
                      catR [ilit "per", ws0, ilit "annum"]])]

/-- `PLACEMENT_PATTERNS['company']` =
`(?:company|companies|recruiter|employer|organization)s?\s*[:-]?\s*`
`([A-Z][A-Za-z0-9\s&,\.\-]+?)(?=\.|,|\n|$)` (IGNORECASE, so `[A-Z]` matches
any ASCII letter). -/
def companyRE : RE :=
  catR [altR [ilit "company", ilit "companies", ilit "recruiter", ilit "employer",
              ilit "organization"],
        .opt (ichr 's'), ws0, optColonDash, ws0,
        .grp 1 (catR [.cls Char.isAlpha,
                      .plusLC (fun c => c.isAlpha || c.isDigit || pyWs c || c = '&' ||
                                        c = ',' || c = '.' || c = '-')]),
        .look (altR [chr '.', chr ',', chr '\n', .eosP])]

/-- The in-function list pattern of `extract_placement_data` =
`(?:companies?|recruiters?|employers?|visited)\s*[:-]?\s*`
`([A-Z][A-Za-z0-9\s,&\.\-]+?)(?=\.\s*[A-Z]|\.\n|;|Total|Highest|Average|Placement)`
(IGNORECASE). -/
def companyListRE : RE :=
  catR [altR [catR [ilit "companie", .opt (ichr 's')], catR [ilit "recruiter", .opt (ichr 's')],
              catR [ilit "employer", .opt (ichr 's')], ilit "visited"],
        ws0, optColonDash, ws0,
        .grp 1 (catR [.cls Char.isAlpha,
                      .plusLC (fun c => c.isAlpha || c.isDigit || pyWs c || c = ',' ||
                                        c = '&' || c = '.' || c = '-')]),
        .look (altR [catR [chr '.', ws0, .cls Char.isAlpha], catR [chr '.', chr '\n'],
                     chr ';', ilit "Total", ilit "Highest", ilit "Average",
                     ilit "Placement"])]

/-- `PLACEMENT_PATTERNS['students']` =
`(\d+)\s*(?:students?|candidates?|scholars?)\s*(?:placed|selected|offered|recruited|hired)`. -/
def studentsRE : RE :=
  catR [.grp 1 (.plusC Char.isDigit), ws0,
        altR [catR [ilit "student", .opt (ichr 's')], catR [ilit "candidate", .opt (ichr 's')],
              catR [ilit "scholar", .opt (ichr 's')]],
        ws0,
        altR [ilit "placed", ilit "selected", ilit "offered", ilit "recruited", ilit "hired"]]

/-- The in-function fraction pattern `(\d+)\s*out\s*of\s*\d+\s*students?`. -/
def studentsFracRE : RE :=
  catR [.grp 1 (.plusC Char.isDigit), ws0, ilit "out", ws0, ilit "of", ws0,
        .plusC Char.isDigit, ws0, ilit "student", .opt (ichr 's')]

/-- `PLACEMENT_PATTERNS['year']` =
`(?:20\d{2})(?:-\d{2})?|(?:academic\s*year|ay|batch)\s*[:-]?\s*(\d{4})`. -/
def yearRE : RE :=
  .alt (catR [ichr '2', ichr '0', digitC, digitC, .opt (catR [chr '-', digitC, digitC])])
       (catR [altR [catR [ilit "academic", ws0, ilit "year"], ilit "ay", ilit "batch"],
              ws0, optColonDash, ws0, .grp 1 (repC Char.isDigit 4)])

/-- `PLACEMENT_PATTERNS['percentage']` =
`(\d+(?:\.\d+)?)\s*%\s*(?:placement|placed|students?\s*placed)`. -/
def percentageRE : RE :=
  catR [.grp 1 (catR [.plusC Char.isDigit, .opt (catR [chr '.', .plusC Char.isDigit])]),
        ws0, chr '%', ws0,
        altR [ilit "placement", ilit "placed",
              catR [ilit "student", .opt (ichr 's'), ws0, ilit "placed"]]]

/-- The in-function standalone pattern `(\d+(?:\.\d+)?)\s*%` (no IGNORECASE). -/
def standalonePctRE : RE :=
  catR [.grp 1 (catR [.plusC Char.isDigit, .opt (catR [chr '.', .plusC Char.isDigit])]),
        ws0, chr '%']

/-- `PLACEMENT_PATTERNS['offers']` = `(\d+)\s*(?:offer|offers)\s*(?:received|made|extended)`. -/
def offersRE : RE :=
  catR [.grp 1 (.plusC Char.isDigit), ws0, altR [ilit "offer", ilit "offers"], ws0,
        altR [ilit "received", ilit "made", ilit "extended"]]

/-- `PLACEMENT_PATTERNS['avg_package']` =
`(?:average|avg|mean)\s*(?:package|salary|ctc)\s*[:-]?\s*(\d+\.?\d*)\s*(lpa|lakhs?)`. -/
def avgPackageRE : RE :=
  catR [altR [ilit "average", ilit "avg", ilit "mean"], ws0,
        altR [ilit "package", ilit "salary", ilit "ctc"], ws0, optColonDash, ws0,
        .grp 1 (catR [.plusC Char.isDigit, .opt (chr '.'), .starC Char.isDigit]), ws0,
        .grp 2 (altR [ilit "lpa", catR [ilit "lakh", .opt (ichr 's')]])]

/-- `PLACEMENT_PATTERNS['highest_package']` =
`(?:highest|maximum|max|top)\s*(?:package|salary|ctc)\s*[:-]?\s*(\d+\.?\d*)\s*(lpa|lakhs?|cr|crores?)`. -/
def highestPackageRE : RE :=
  catR [altR [ilit "highest", ilit "maximum", ilit "max", ilit "top"], ws0,
        altR [ilit "package", ilit "salary", ilit "ctc"], ws0, optColonDash, ws0,
        .grp 1 (catR [.plusC Char.isDigit, .opt (chr '.'), .starC Char.isDigit]), ws0,
        .grp 2 (altR [ilit "lpa", catR [ilit "lakh", .opt (ichr 's')], ilit "cr",
                      catR [ilit "crore", .opt (ichr 's')]])]

/-- The numeric sub-pattern `(\d+\.?\d*)` used on each package string. -/
def numericRE : RE :=
  .grp 1 (catR [.plusC Char.isDigit, .opt (chr '.'), .starC Char.isDigit])

/-- Python `int` on a digit string. -/
def strToNat (s : Str) : Nat :=
  s.foldl (fun a c => a * 10 + (c.toNat - '0'.toNat)) 0

/-- Python `float` on a `digits[.digits]` string, modelled exactly in `ℚ`
(the code only compares and aggregates these values). -/
def strToRat (s : Str) : ℚ :=
  match splitFirst? '.' s with
  | none => Rat.divInt (strToNat s) 1
  | some (a, b) =>
    Rat.divInt (strToNat a * 10 ^ b.length + strToNat b) (10 ^ b.length)

/-- Python `s.split(sep)` for a one-character separator (keeps empty pieces). -/
def splitOn (sep : Char) : Str → List Str
  | [] => [[]]
  | c :: s =>
    let r := splitOn sep s
    if c = sep then [] :: r
    else
      match r with
      | [] => [[c]]
      | h :: t => (c :: h) :: t

/-- Python `str.strip()` (whitespace at both ends). -/
def stripWs (s : Str) : Str :=
  ((s.dropWhile pyWs).reverse.dropWhile pyWs).reverse

/-- Python `str.isdigit()` for ASCII text. -/
def strIsDigit (s : Str) : Bool := s ≠ [] && s.all Char.isDigit

/-- Deduplication keeping the first occurrence of each element.  Models
Python's `list(set(...))`, whose order is unspecified; every use in the
repository is order-insensitive (membership tests, emptiness, or a subsequent
`sorted`). -/
def dedupFirst : List Str → List Str
  | [] => []
  | x :: xs => x :: ((dedupFirst xs).filter (fun y => y ≠ x))

/-- Lexicographic (code-point) strict order on strings, Python `<`. -/
def strLt : Str → Str → Bool
  | [], [] => false
  | [], _ :: _ => true
  | _ :: _, [] => false
  | a :: as, b :: bs => a < b || (a = b && strLt as bs)

/-- Python `sorted(l, reverse=True)` for strings. -/
def sortDescStr (l : List Str) : List Str :=
  insSort (fun a b => !strLt a b) l

/-- Maximum of a rational list, Python `max` (0 for `[]`, never used there). -/
def listMaxQ : List ℚ → ℚ
  | [] => 0
  | x :: xs => xs.foldl (fun b v => if b < v then v else b) x

/-- Maximum of a natural-number list. -/
def listMaxN : List Nat → Nat
  | [] => 0
  | x :: xs => xs.foldl max x

/-- The `statistics` dict of `extract_placement_data`; optional keys become
`Option` fields.  `company_count` and `data_richness` are always set. -/
structure PlacementStats where
  highest_package : Option Str
  average_package : Option Str
  total_placed : Option Nat
  max_placed : Option Nat
  avg_placed : Option ℚ
  placement_percentage : Option ℚ
  total_offers : Option Nat
  highest_package_lpa : Option ℚ
  avg_package_lpa : Option ℚ
  company_count : Nat
  data_richness : Str
deriving DecidableEq

/-- The result dict of `extract_placement_data`. -/
structure PlacementData where
  packages : List Str
  companies : List Str
  student_counts : List Nat
  years : List Str
  placement_percentages : List ℚ
  offer_counts : List Nat
  statistics : PlacementStats
deriving DecidableEq

/-- The stop words filtered out of the company list. -/
def excluded_words : List Str :=
  ["total".data, "students".data, "placed".data, "package".data, "offers".data,
   "received".data, "year".data, "average".data, "highest".data]

/-- `extract_placement_data(text)` of `documentExtractor.py`, translated
clause by clause. -/
def extract_placement_data (text : Str) : PlacementData :=
  let packages :=
    (findAll2 packageRE text).map (fun m => m.1 ++ ' ' :: upperStr m.2)
  let highest :=
    (reSearchM highestPackageRE text).map
      (fun m => capGet 1 m.2 ++ ' ' :: upperStr (capGet 2 m.2))
  let average :=
    (reSearchM avgPackageRE text).map
      (fun m => capGet 1 m.2 ++ ' ' :: upperStr (capGet 2 m.2))
  let companies := findAll1 companyRE text
  let company_lists := findAll1 companyListRE text
  let all_companies :=
    (companies.flatMap
      (fun c => ((splitOn ',' c).map stripWs).filter (fun n => n.length > 2))) ++
    (company_lists.flatMap
      (fun c => ((splitOn ',' c).map stripWs).filter (fun n => n.length > 2)))
  let companiesOut :=
    dedupFirst (all_companies.filter
      (fun c => c.length > 2 && !strIsDigit c && lowerStr c ∉ excluded_words))
  let student_counts :=
    (findAll1 studentsRE text).map strToNat ++
    (findAll1 studentsFracRE text).map strToNat
  let percentages :=
    (findAll1 percentageRE text).map strToRat ++
    ((findAll1 standalonePctRE text).map strToRat).filter
      (fun p => 50 ≤ p && p ≤ 100)
  let offer_counts := (findAll1 offersRE text).map strToNat
  let years :=
    sortDescStr (dedupFirst ((findAll1 yearRE text).filter (fun y => y ≠ [])))
  let numeric_packages : List ℚ :=
    packages.filterMap (fun pkg =>
      (reSearchM numericRE pkg).map (fun m =>
        let v := strToRat (capGet 1 m.2)
        if strHas "CR".data (upperStr pkg) then pyMul v 100 else v))
  let stats : PlacementStats :=
    { highest_package := highest
      average_package := average
      total_placed := if student_counts ≠ [] then some student_counts.sum else none
      max_placed := if student_counts ≠ [] then some (listMaxN student_counts) else none
      avg_placed :=
        if student_counts ≠ [] then
          some (pyDiv (student_counts.sum : ℚ) (student_counts.length : ℚ))
        else none
      placement_percentage :=
        if percentages ≠ [] then some (listMaxQ percentages) else none
      total_offers := if offer_counts ≠ [] then some offer_counts.sum else none
      highest_package_lpa :=
        if packages ≠ [] ∧ numeric_packages ≠ [] ∧ highest = none then
          some (listMaxQ numeric_packages)
        else none
      avg_package_lpa :=
        if packages ≠ [] ∧ numeric_packages ≠ [] ∧ average = none then
          some (pyDiv (pySum numeric_packages) (numeric_packages.length : ℚ))
        else none
      company_count := companiesOut.length
      data_richness :=
        if companiesOut.length > 5 then "high".data
        else if companiesOut.length > 0 then "medium".data
        else "low".data }
  { packages := packages
    companies := companiesOut
    student_counts := student_counts
    years := years
    placement_percentages := percentages
    offer_counts := offer_counts
    statistics := stats }

/-! ## Date extraction and recency filter
(`documentExtractor.py`, `extract_date_from_text`, `is_recent_document`) -/

/-- A calendar date as produced by Python's `datetime(...)` constructor. -/
structure PyDate where
  year : Nat
  month : Nat
  day : Nat
deriving DecidableEq

/-- Gregorian leap year. -/
def isLeap (y : Nat) : Bool := y % 4 = 0 && (y % 100 ≠ 0 || y % 400 = 0)

/-- Days in a month of the proleptic Gregorian calendar. -/
def daysInMonth (y m : Nat) : Nat :=
  if m = 2 then (if isLeap y then 29 else 28)
  else if m = 4 ∨ m = 6 ∨ m = 9 ∨ m = 11 then 30
  else 31

/-- The `datetime(year, month, day)` constructor: `none` models the
`ValueError` that the `except` branch of `extract_date_from_text` swallows. -/
def mkDate? (y m d : Nat) : Option PyDate :=
  if 1 ≤ y ∧ y ≤ 9999 ∧ 1 ≤ m ∧ m ≤ 12 ∧ 1 ≤ d ∧ d ≤ daysInMonth y m then
    some ⟨y, m, d⟩
  else none

/-- `datetime.toordinal()` : day number of the proleptic Gregorian calendar
(day 1 = January 1 of year 1). -/
def dateOrdinal (dt : PyDate) : ℤ :=
  let n := dt.year - 1
  let beforeYear := 365 * n + n / 4 + n / 400 - n / 100
  let beforeMonth := ((List.range (dt.month - 1)).map
    (fun i => daysInMonth dt.year (i + 1))).sum
  (beforeYear : ℤ) + (beforeMonth : ℤ) + (dt.day : ℤ)

/-- `\d{1,2}` (greedy). -/
def d12 : RE := catR [digitC, .opt digitC]

/-- The separator class `[/.-]`. -/
def dateSepC : Char → Bool := fun c => c = '-' || c = '/' || c = '.'

/-- Date pattern `(\d{1,2})[/.-](\d{1,2})[/.-](\d{4})`. -/
def datePat1 : RE :=
  catR [.grp 1 d12, .cls dateSepC, .grp 2 d12, .cls dateSepC,
        .grp 3 (repC Char.isDigit 4)]

/-- Date pattern `(\d{4})[/.-](\d{1,2})[/.-](\d{1,2})`. -/
def datePat2 : RE :=
  catR [.grp 1 (repC Char.isDigit 4), .cls dateSepC, .grp 2 d12, .cls dateSepC,
        .grp 3 d12]

/-- The month-name alternation `(Jan|Feb|Mar|Apr|May|Jun|Jul|Aug|Sep|Oct|Nov|Dec)`. -/
def monthAlt : RE :=
  altR [ilit "Jan", ilit "Feb", ilit "Mar", ilit "Apr", ilit "May", ilit "Jun",
        ilit "Jul", ilit "Aug", ilit "Sep", ilit "Oct", ilit "Nov", ilit "Dec"]

/-- Date pattern `(Month)[a-z]*\s+(\d{1,2}),?\s+(\d{4})` (IGNORECASE, so the
trailing `[a-z]*` matches letters of either case). -/
def datePat3 : RE :=
  catR [.grp 1 monthAlt, .starC Char.isAlpha, ws1, .grp 2 d12, .opt (chr ','),
        ws1, .grp 3 (repC Char.isDigit 4)]

/-- Date pattern `(\d{1,2})\s+(Month)[a-z]*\s+(\d{4})`. -/
def datePat4 : RE :=
  catR [.grp 1 d12, ws1, .grp 2 monthAlt, .starC Char.isAlpha, ws1,
        .grp 3 (repC Char.isDigit 4)]

/-- The `month_map` of `extract_date_from_text`, looked up with the lowercased
first three characters of a month token. -/
def monthNum (s : Str) : Option Nat :=
  (([("jan".data, 1), ("feb".data, 2), ("mar".data, 3), ("apr".data, 4),
     ("may".data, 5), ("jun".data, 6), ("jul".data, 7), ("aug".data, 8),
     ("sep".data, 9), ("oct".data, 10), ("nov".data, 11), ("dec".data, 12)] :
      List (Str × Nat)).find?
    (fun e => e.1 = lowerStr (s.take 3))).map Prod.snd

/-- Python `str.isalpha()` (ASCII text). -/
def strIsAlpha (s : Str) : Bool := s ≠ [] && s.all Char.isAlpha

/-- `re.split(r'[/.-]', s)`. -/
def splitSepsGo : Str → List Str
  | [] => [[]]
  | c :: s =>
    let r := splitSepsGo s
    if dateSepC c then [] :: r
    else
      match r with
      | [] => [[c]]
      | h :: t => (c :: h) :: t

/-- The body of the `try` block of `extract_date_from_text` for one regex
match: numeric formats are re-split on `[/.-]` and interpreted as
`YYYY-MM-DD` when the first part has four characters and as `DD-MM-YYYY`
otherwise; month-name formats go through `month_map`.  `none` is the
swallowed exception (or a falsy month), which moves on to the next pattern. -/
def buildDate (whole g1 g2 g3 : Str) : Option PyDate :=
  if '-' ∈ whole ∨ '/' ∈ whole ∨ '.' ∈ whole then
    let parts := splitSepsGo whole
    if (parts.getD 0 []).length = 4 then
      mkDate? (strToNat (parts.getD 0 [])) (strToNat (parts.getD 1 []))
        (strToNat (parts.getD 2 []))
    else
      mkDate? (strToNat (parts.getD 2 [])) (strToNat (parts.getD 1 []))
        (strToNat (parts.getD 0 []))
  else if strIsAlpha g1 then
    (monthNum g1).bind (fun m => mkDate? (strToNat g3) m (strToNat g2))
  else if strIsAlpha g2 then
    (monthNum g2).bind (fun m => mkDate? (strToNat g3) m (strToNat g1))
  else none

/-- `extract_date_from_text(text)` : try the four date patterns in order;
a pattern whose match fails to build a date falls through to the next. -/
def extract_date_from_text (text : Str) : Option PyDate :=
  [datePat1, datePat2, datePat3, datePat4].findSome?
    (fun pat => (reSearchM pat text).bind
      (fun m => buildDate m.1 (capGet 1 m.2) (capGet 2 m.2) (capGet 3 m.2)))

/-- `is_recent_document(text, title, days_threshold)`.  `now` is the day
ordinal of `datetime.now()` (the clock is external); `(now − date).days` is
then exactly `now - dateOrdinal date` since stored dates are midnight
dates. -/
def is_recent_document (now : ℤ) (text title : Str) (days_threshold : ℤ) :
    Bool × Option PyDate :=
  let combined := title ++ ' ' :: text.take 1000
  match extract_date_from_text combined with
  | some d => (decide (now - dateOrdinal d ≤ days_threshold), some d)
  | none => (true, none)

/-! ## Content hash and duplicate check
(`documentExtractor.py`, `calculate_content_hash`, `is_duplicate_content`) -/

/-- `re.sub(r'\s+', ' ', s)` : collapse whitespace runs to single spaces. -/
def collapseWsGo : Bool → Str → Str
  | _, [] => []
  | prev, c :: s =>
    if pyWs c then
      (if prev then collapseWsGo true s else ' ' :: collapseWsGo true s)
    else c :: collapseWsGo false s

/-- Whitespace collapsing entry point. -/
def collapseWs (s : Str) : Str := collapseWsGo false s

/-- `calculate_content_hash(content)` : MD5 of the whitespace-collapsed,
lowercased, stripped content.  MD5 itself is an external library function,
abstracted as the parameter `md5`. -/
def calculate_content_hash (md5 : Str → Str) (content : Str) : Str :=
  md5 (stripWs (collapseWs (lowerStr content)))

/-- `is_duplicate_content(content_hash, existing_hashes)`. -/
def is_duplicate_content (h : Str) (hashes : List Str) : Bool := h ∈ hashes

/-! ## RAG service (`app/services/ragService.py`, `RAGService.query`) -/

/-- The search-result triple lists returned by `vector_store.search`
(documents, metadatas, distances).  Metadata dicts are opaque tokens. -/
structure SearchResults where
  documents : List Str
  metadatas : List Str
  distances : List ℚ

/-- The answer dict of `RAGService.query`; `retrieved` is the
`retrieved_documents` key, absent (`none`) in the two low-confidence
returns. -/
structure RagAnswer where
  answer : Str
  sources : List Str
  retrieved : Option (List Str)
  confidence : Str
deriving DecidableEq

/-- Python `zip` over three lists (truncates to the shortest). -/
def zip3 : List α → List β → List γ → List (α × β × γ)
  | a :: as', b :: bs, c :: cs => (a, b, c) :: zip3 as' bs cs
  | _, _, _ => []

/-- The "not found" answer text of `RAGService.query`. -/
def ragNoResultsMsg : Str :=
  "I couldn\x27t find relevant information in the placement database. Could you rephrase your question or be more specific?".data

/-- The "ambiguous" answer text of `RAGService.query`. -/
def ragAmbiguousMsg : Str :=
  "I found some related information, but it may not directly answer your question. Could you be more specific?".data

/-- `RAGService._build_context` : numbered source blocks joined by newlines. -/
def rag_build_context (docs : List Str) : Str :=
  List.intercalate "\n".data
    (docs.enum.map (fun e =>
      "[Source ".data ++ (toString (e.1 + 1)).data ++ "]\n".data ++ e.2 ++ "\n".data))

/-- `RAGService._build_prompt` : the generation prompt embedding context and
question into the fixed formatting template of the source. -/
def rag_build_prompt (question context : Str) : Str :=
  "You are a helpful assistant for college placement information. Use the context below to answer the question accurately.\n\nContext:\n".data
  ++ context
  ++ "\n\nQuestion: ".data
  ++ question
  ++ "\n\nCRITICAL FORMATTING RULES:\n1. Use **bold headings** with emojis: **## 📊 Title**\n2. ALWAYS add a blank line after each section\n3. ALWAYS add a blank line before each new heading\n4. Use markdown tables for branch-wise data\n5. Add blank line after tables\n6. Use **bold** for numbers\n\nTable format:\n| Branch | Placed | Placement % | Highest CTC | Average CTC |\n|--------|--------|-------------|-------------|-------------|\n| CSE    |153/203 | 75.37%      | 33.0 LPA    | 9.31 LPA |\n\nEXAMPLE OUTPUT FORMAT:\n\n**## 📊 Overall Statistics**\n\n• Total Students: **1027**\n• Students Placed: **658**\n\n**## 💼 Branch-wise Placement Data**\n\n[Table here]\n\n**## 🏆 Key Insights**\n\n• Best branch: CIVIL **83.87%**\n\nRemember: Blank line after EVERY section!\n\nAnswer:".data

/-- `RAGService.query(question, n_results)` : the retrieval step
(`vector_store.search`) and the generative model are external; `res` is the
search result and `llm` the generation backend.  Filtering, source slicing and
the confidence label follow the source line by line; the float thresholds
1.2 and 0.5 are the exact rationals `6/5` and `1/2` (written via `divInt`
for kernel computability). -/
def ragQuery (llm : Str → Str) (res : SearchResults) (question : Str) : RagAnswer :=
  if res.documents.isEmpty then
    ⟨ragNoResultsMsg, [], none, "low".data⟩
  else
    let triples := zip3 res.documents res.metadatas res.distances
    let filtered := triples.filter (fun t => t.2.2 < Rat.divInt 6 5)
    if filtered.isEmpty then
      ⟨ragAmbiguousMsg, res.metadatas.take 2, none, "low".data⟩
    else
      let docs5 := (filtered.map (fun t => t.1)).take 5
      let metas5 := (filtered.map (fun t => t.2.1)).take 5
      let dists5 := (filtered.map (fun t => t.2.2)).take 5
      let answer := llm (rag_build_prompt question (rag_build_context docs5))
      ⟨answer, metas5, some docs5,
       if dists5.headI < Rat.divInt 1 2 then "high".data else "medium".data⟩

/-! ## Generation fallback (`app/ml/hybrid_chatbot.py`, `generate_response`) -/

/-- The ordered model-name list `HybridChatbot.models`. -/
def chatbotModels : List Str :=
  ["gemini-2.5-flash".data, "gemini-2.0-flash-exp".data, "gemini-1.5-flash".data,
   "gemini-1.5-pro".data]

/-- One candidate of a Gemini response: finish reason (1 = STOP), whether
`content.parts` is nonempty, as inspected by `generate_response`. -/
structure GenCandidate where
  finishReason : Int
  hasParts : Bool
deriving DecidableEq

/-- The outcome of calling one model (external backend): the call raised, or
returned a response with its candidate list and `response.text`. -/
inductive ModelOutcome where
  | raised (msg : Str)
  | ok (cands : List GenCandidate) (text : Str)

/-- The per-model body of the fallback loop of `generate_response` : empty
candidate list, non-STOP finish reason and missing content parts are raised
as `ValueError`s (here `.error`), caught by the loop. -/
def attemptModel : ModelOutcome → Except Str Str
  | .raised m => .error m
  | .ok cands text =>
    match cands with
    | [] => .error "No response candidates".data
    | c :: _ =>
      if c.finishReason ≠ 1 then
        .error ("Response blocked: ".data ++ (toString c.finishReason).data)
      else if !c.hasParts then .error "No content in response".data
      else .ok text

/-- The result dict of `generate_response`, restricted to the fields the
claims are about (`content`, `sources`, `metadata.model` / `metadata.error` /
`metadata.ml_enabled`). -/
structure ChatResult where
  content : Str
  sources : List Str
  modelUsed : Option Str
  errorMeta : Option Str
  mlEnabled : Bool
deriving DecidableEq

/-- The apology text of the outer `except` of `generate_response`. -/
def apologyMsg : Str :=
  "I apologize, but I\x27m having trouble processing your request right now. Please try again later.".data

/-- The model loop: first model whose attempt succeeds wins; exhausting the
list raises `All AI models failed. Last error: ...`, carrying the last
failure. -/
def tryModels (outcomes : Str → ModelOutcome) : List Str → Option Str → Except Str (Str × Str)
  | [], lastErr =>
    .error ("All AI models failed. Last error: ".data ++ lastErr.getD "None".data)
  | m :: ms, _lastErr =>
    match attemptModel (outcomes m) with
    | .ok text => .ok (text, m)
    | .error e => tryModels outcomes ms (some e)

/-- `generate_response` (the model-fallback portion; context assembly above it
is external data preparation): a success result from the first working model,
or the synthesized apology result with the error recorded in metadata —
never a propagated exception. -/
def generate_response (outcomes : Str → ModelOutcome) : ChatResult :=
  match tryModels outcomes chatbotModels none with
  | .ok r => ⟨r.1, [], some r.2, none, true⟩
  | .error e => ⟨apologyMsg, [], none, some e, false⟩

/-! ## Link and document collection
(`app/routes/scraping.py`, `scrape_page_content` lines 165–212) -/

/-- One entry of the `links` list (text, url, priority). -/
structure LinkInfo where
  ltext : Str
  url : Str
  priority : Nat
deriving DecidableEq

/-- One entry of the `documents` list (text, url, type, priority). -/
structure DocLink where
  ltext : Str
  url : Str
  dtype : Str
  priority : Nat
deriving DecidableEq

/-- Python `parsed.path.split('/')[-1]`. -/
def pathLastSeg (p : Str) : Str := ((splitOn '/' p).getLast?).getD []

/-- The link-collection loop of `scrape_page_content` : anchors are the
`(href, text)` pairs from the soup, with `urljoin` (external) already applied
so hrefs are absolute; then exactly as in the source: normalize, keep
same-domain http(s) URLs not yet seen, and dispatch into document links
(`.pdf/.doc/.docx`, typed `pdf` only for a case-sensitive `.pdf` suffix),
informational image links, and ordinary page links (excluding
`.zip/.exe/.rar`). -/
def collectLinks (pageUrl pageTitle : Str) (anchors : List (Str × Str)) :
    List LinkInfo × List DocLink :=
  let baseDomain := (urlparseModel pageUrl).netloc
  let pagePriority := calculate_page_priority pageUrl pageTitle
  let isHighPriorityPage := decide (pagePriority ≥ 75)
  let step := fun (st : List LinkInfo × List DocLink × List Str) (a : Str × Str) =>
    let (links, docs, seen) := st
    let fullUrl := normalize_url a.1
    let ltext := a.2
    let parsed := urlparseModel fullUrl
    if parsed.netloc = baseDomain ∧
        (parsed.scheme = "http".data ∨ parsed.scheme = "https".data) ∧
        fullUrl ∉ seen then
      let seen' := seen ++ [fullUrl]
      if strEndsAny [".pdf".data, ".doc".data, ".docx".data] (lowerStr fullUrl) then
        (links,
         docs ++ [{ ltext := if ltext ≠ [] then ltext else pathLastSeg parsed.path
                    url := fullUrl
                    dtype := if strEnds ".pdf".data fullUrl then "pdf".data
                             else "document".data
                    priority := calculate_page_priority fullUrl ltext }],
         seen')
      else if strEndsAny [".jpg".data, ".jpeg".data, ".png".data, ".gif".data]
          (lowerStr fullUrl) then
        if isHighPriorityPage ∨
            (["placement".data, "statistics".data, "data".data, "info".data].any
              (fun kw => strHas kw (lowerStr ltext))) then
          (links,
           docs ++ [{ ltext := if ltext ≠ [] then ltext else pathLastSeg parsed.path
                      url := fullUrl
                      dtype := "image".data
                      priority := pagePriority }],
           seen')
        else (links, docs, seen')
      else if ¬ strEndsAny [".zip".data, ".exe".data, ".rar".data] fullUrl then
        (links ++ [{ ltext := if ltext ≠ [] then ltext
                              else if pathLastSeg parsed.path ≠ [] then pathLastSeg parsed.path
                              else "Link".data
                     url := fullUrl
                     priority := calculate_page_priority fullUrl ltext }],
         docs, seen')
      else (links, docs, seen')
    else (links, docs, seen)
  let r := anchors.foldl step ([], [], [])
  (r.1, r.2.1)

/-- One entry of `extractedDocuments`.  Keys an entry never sets (for example
`documentDate` on image entries) are `none`; the extraction metadata dicts are
external and omitted. -/
structure ExtractedDoc where
  url : Str
  title : Str
  dtype : Str
  text : Str
  placementData : Option PlacementData
  documentDate : Option PyDate
  isRecent : Option Bool
deriving DecidableEq, Inhabited

/-- `any(placement_data.values())` : the last value is the `statistics` dict,
which always carries `company_count` and `data_richness` by the time
`extract_placement_data` returns, so the disjunction closes with the
always-nonempty statistics dict. -/
def pdAnyValues (pd : PlacementData) : Bool :=
  !pd.packages.isEmpty || !pd.companies.isEmpty || !pd.student_counts.isEmpty ||
  !pd.years.isEmpty || !pd.placement_percentages.isEmpty ||
  !pd.offer_counts.isEmpty || true

/-- The per-document extraction loop of `scrape_page_content` (lines
240–288).  PDF and image download/extraction are external: `pdfX`/`imgX`
return the extracted text, the empty string standing for both extraction
failure and an exception (either way the document is skipped, as in the
source).  Only documents typed `pdf` or `image` are dispatched; every other
type falls through the `if`/`elif` and is ignored. -/
def extractStep (now : ℤ) (pdfX imgX : Str → Str)
    (acc : List ExtractedDoc) (doc : DocLink) : List ExtractedDoc :=
  if doc.dtype = "pdf".data then
    let pdfText := pdfX doc.url
    if pdfText ≠ [] then
      let pd := extract_placement_data pdfText
      let r := is_recent_document now pdfText doc.ltext 180
      if r.1 ∨ pd.companies ≠ [] ∨ pd.packages ≠ [] then
        acc ++ [{ url := doc.url, title := doc.ltext, dtype := "pdf".data
                  text := pdfText.take 5000
                  placementData := if pdAnyValues pd then some pd else none
                  documentDate := r.2, isRecent := some r.1 }]
      else acc
    else acc
  else if doc.dtype = "image".data then
    let imgText := imgX doc.url
    if imgText ≠ [] then
      let pd := extract_placement_data imgText
      acc ++ [{ url := doc.url, title := doc.ltext, dtype := "image".data
                text := imgText.take 2000
                placementData := if pdAnyValues pd then some pd else none
                documentDate := none, isRecent := none }]
    else acc
  else acc

def extractDocumentsLoop (now : ℤ) (pdfX imgX : Str → Str) (docs : List DocLink) :
    List ExtractedDoc :=
  docs.foldl (extractStep now pdfX imgX) []

/-- The document-extraction stage (lines 226–240): placement pages extract up
to 30 documents, other high-priority pages up to 15, everything else none;
documents are visited most-prioritized first (`list.sort` is stable,
modelled by stable insertion sort). -/
def extract_documents (now : ℤ) (pdfX imgX : Str → Str) (pageUrl pageTitle : Str)
    (documents : List DocLink) : List ExtractedDoc :=
  let isHighPriorityPage := calculate_page_priority pageUrl pageTitle ≥ 75
  let isPlacementPage := calculate_page_priority pageUrl pageTitle ≥ 150
  let maxDocs := if isPlacementPage then 30 else if isHighPriorityPage then 15 else 0
  if (isHighPriorityPage ∨ isPlacementPage) ∧ documents ≠ [] then
    let sorted := insSort (fun a b => decide (b.priority ≤ a.priority)) documents
    extractDocumentsLoop now pdfX imgX (sorted.take maxDocs)
  else []

/-! ## Crawl scheduler (`scrape_page_content` / `scrape_entire_website`) -/

/-- The outcome of fetching and soup-parsing one page (external: httpx +
BeautifulSoup): the page title and the `(href, text)` anchor pairs, hrefs
already made absolute by `urljoin` (external). -/
structure FetchedPage where
  title : Str
  anchors : List (Str × Str)

/-- The external collaborators of one crawl: the web (`none` = fetch or parse
failure, the `except` branch), the clock, and the PDF/image extractors. -/
structure CrawlEnv where
  web : Str → Option FetchedPage
  now : ℤ
  pdfX : Str → Str
  imgX : Str → Str

/-- One `page_data` entry of `scrape_page_content`.  `sections`, `tables`,
`contactInfo`, `metaDescription` and `scrapedAt` are built purely from the
external fetch/clock and are omitted; every field the claims mention is
kept. -/
structure PageRec where
  url : Str
  pageTitle : Str
  links : List (Str × Str)
  documents : List DocLink
  extractedDocuments : List ExtractedDoc
  priority : Nat
  isHighPriority : Bool
  depth : Nat
deriving DecidableEq, Inhabited

/-- Sort links by descending priority (`links.sort(key=..., reverse=True)`,
stable). -/
def sortLinksDesc (links : List LinkInfo) : List LinkInfo :=
  insSort (fun a b => decide (b.priority ≤ a.priority)) links

/-- The `links_to_follow` computation (lines 313–325): priority-sorted links
partitioned into the four tiers `≥150`, `[75,150)`, `[50,75)`, `<50`, followed
up to 50/30/10/5 per tier. -/
def linksToFollow (links : List LinkInfo) : List Str :=
  let ls := sortLinksDesc links
  let placementLinks := (ls.filter (fun l => l.priority ≥ 150)).map (fun l => l.url)
  let highLinks := (ls.filter (fun l => 75 ≤ l.priority ∧ l.priority < 150)).map (fun l => l.url)
  let medLinks := (ls.filter (fun l => 50 ≤ l.priority ∧ l.priority < 75)).map (fun l => l.url)
  let lowLinks := (ls.filter (fun l => l.priority < 50)).map (fun l => l.url)
  placementLinks.take 50 ++ highLinks.take 30 ++ medLinks.take 10 ++ lowLinks.take 5

/-- The two link-following loops of `scrape_page_content`, abstracted over the
recursive page call: the first loop (lines 327–340) normalizes each URL again
and recurses while the visited set is below 250; the second (lines 342–348)
takes the URLs as they are with a 200 cap.  A URL already visited, or a full
visited set, is skipped. -/
def scrapeLinks (scrape : Str → List Str → List PageRec × List Str)
    (firstLoop : Bool) : List Str → List Str → List PageRec × List Str
  | [], visited => ([], visited)
  | u :: us, visited =>
    let u' := if firstLoop then normalize_url u else u
    let cap : Nat := if firstLoop then 250 else 200
    if u' ∉ visited ∧ visited.length < cap then
      let r := scrape u' visited
      let rs := scrapeLinks scrape firstLoop us r.2
      (r.1 ++ rs.1, rs.2)
    else scrapeLinks scrape firstLoop us visited

/-- `scrape_page_content(url, visited, max_depth, current_depth)`.

The Python recursion terminates because `current_depth` grows toward
`max_depth`; here `fuel` is `maxDepth - curDepth`, maintained by every call
site, so the `fuel = 0` fallback coincides with the `current_depth >=
max_depth` guard and is never reached on its own.  A fetch/parse failure
(`env.web url = none`) is the `except` branch: the URL stays visited and the
branch yields no pages. -/
def scrapePage (env : CrawlEnv) (maxDepth : Nat) : Nat → Nat → Str → List Str →
    List PageRec × List Str
  | 0 => fun _ _ visited => ([], visited)
  | fuel + 1 => fun curDepth url visited =>
    if curDepth ≥ maxDepth ∨ url ∈ visited then ([], visited)
    else
      let visited1 := visited ++ [url]
      match env.web url with
      | none => ([], visited1)
      | some page =>
        let title := page.title
        let lk := collectLinks url title page.anchors
        let links := lk.1
        let documents := lk.2
        let pagePriority := calculate_page_priority url title
        let extracted := extract_documents env.now env.pdfX env.imgX url title documents
        let pageData : PageRec :=
          { url := url, pageTitle := title
            links := ((sortLinksDesc links).take 60).map (fun l => (l.ltext, l.url))
            documents := documents.take 20
            extractedDocuments := extracted
            priority := pagePriority
            isHighPriority := decide (pagePriority ≥ 75)
            depth := curDepth }
        if curDepth < maxDepth - 1 then
          let follow := linksToFollow links
          let s1 := scrapeLinks (scrapePage env maxDepth fuel (curDepth + 1)) true follow visited1
          let s2 := scrapeLinks (scrapePage env maxDepth fuel (curDepth + 1)) false follow s1.2
          (pageData :: (s1.1 ++ s2.1), s2.2)
        else ([pageData], visited1)

/-- The crawl entry point of `scrape_entire_website` : `visited = set()`,
then `scrape_page_content(url, visited, max_depth)` from depth 0. -/
def crawlWebsite (env : CrawlEnv) (maxDepth : Nat) (seed : Str) :
    List PageRec × List Str :=
  scrapePage env maxDepth maxDepth 0 seed []

/-! ## Deduplicating save loop (`scrape_entire_website`, lines 430–541)

A stored knowledge-base entry is modelled by its two fields the dedup logic
reads: the normalized `url` (the lookup key) and the `contentHash`; the rich
metadata written alongside is irrelevant to the claims.  A crawl page enters
the loop with its assembled `full_content` (sections plus extracted document
texts). -/

/-- A stored knowledge-base record (url key, content hash). -/
structure KBRecord where
  url : Str
  hash : Str
deriving DecidableEq

/-- The mutable state of one save run: the store, the preloaded-and-growing
hash set, and the three counters. -/
structure SaveState where
  store : List KBRecord
  hashes : List Str
  savedCount : Nat
  updatedCount : Nat
  skippedCount : Nat
deriving DecidableEq

/-- One crawl page as the save loop sees it. -/
structure CrawlPage where
  url : Str
  content : Str
deriving DecidableEq

/-- `update_one` : replace the hash of the first record with the given url. -/
def updateFirst (u h : Str) : List KBRecord → List KBRecord
  | [] => []
  | r :: rs => if r.url = u then { r with hash := h } :: rs else r :: updateFirst u h rs

/-- One iteration of the save loop: hash already known → skip; unknown hash
and existing record under the normalized URL → update in place when the
stored hash differs (adding the new hash to the set), no-op skip otherwise;
no record → insert (adding the hash). -/
def savePage (md5 : Str → Str) (st : SaveState) (p : CrawlPage) : SaveState :=
  let h := calculate_content_hash md5 p.content
  if is_duplicate_content h st.hashes then
    { st with skippedCount := st.skippedCount + 1 }
  else
    let nu := normalize_url p.url
    match st.store.find? (fun r => r.url = nu) with
    | some r =>
      if r.hash ≠ h then
        { st with store := updateFirst nu h st.store
                  hashes := h :: st.hashes
                  updatedCount := st.updatedCount + 1 }
      else { st with skippedCount := st.skippedCount + 1 }
    | none =>
      { st with store := st.store ++ [⟨nu, h⟩]
                hashes := h :: st.hashes
                savedCount := st.savedCount + 1 }

/-- One save run over the crawled pages: hashes are preloaded from every
stored record, then the pages are processed in order. -/
def saveRun (md5 : Str → Str) (pages : List CrawlPage) (store0 : List KBRecord) :
    SaveState :=
  pages.foldl (savePage md5) ⟨store0, store0.map (fun r => r.hash), 0, 0, 0⟩

/-- The count the spec describes: pages whose hash is already in the evolving
hash set (preloaded hashes plus hashes of pages written so far). -/
def dupCount (md5 : Str → Str) : List CrawlPage → List Str → Nat
  | [], _ => 0
  | p :: ps, hs =>
    let h := calculate_content_hash md5 p.content
    if h ∈ hs then 1 + dupCount md5 ps hs else dupCount md5 ps (h :: hs)

/-! # Theorems -/

/-! ## Bridging lemmas for the rational helpers -/

theorem ratNumEq (a : ℚ) : (a.num : ℚ) = a * a.den := by
  have ha : ((a.den : ℚ)) ≠ 0 := Nat.cast_ne_zero.mpr a.den_nz
  rw [← div_eq_iff ha, Rat.num_div_den]

theorem pyAdd_eq (a b : ℚ) : pyAdd a b = a + b := by
  have ha : ((a.den : ℚ)) ≠ 0 := Nat.cast_ne_zero.mpr a.den_nz
  have hb : ((b.den : ℚ)) ≠ 0 := Nat.cast_ne_zero.mpr b.den_nz
  rw [pyAdd, Rat.divInt_eq_div]
  push_cast
  rw [div_eq_iff (mul_ne_zero ha hb), ratNumEq a, ratNumEq b]
  ring

theorem pyMul_eq (a b : ℚ) : pyMul a b = a * b := by
  have ha : ((a.den : ℚ)) ≠ 0 := Nat.cast_ne_zero.mpr a.den_nz
  have hb : ((b.den : ℚ)) ≠ 0 := Nat.cast_ne_zero.mpr b.den_nz
  rw [pyMul, Rat.divInt_eq_div]
  push_cast
  rw [div_eq_iff (mul_ne_zero ha hb), ratNumEq a, ratNumEq b]
  ring

theorem pyDiv_eq (a b : ℚ) : pyDiv a b = a / b := by
  rcases eq_or_ne b 0 with rfl | hb
  · simp [pyDiv]
  · have ha : ((a.den : ℚ)) ≠ 0 := Nat.cast_ne_zero.mpr a.den_nz
    have hbn : ((b.num : ℚ)) ≠ 0 := by exact_mod_cast Rat.num_ne_zero.mpr hb
    rw [pyDiv, Rat.divInt_eq_div]
    push_cast
    rw [div_eq_div_iff (mul_ne_zero ha hbn) hb, ratNumEq a, ratNumEq b]
    ring

theorem pySum_eq (l : List ℚ) : pySum l = l.sum := by
  have h : ∀ (a : ℚ), l.foldl pyAdd a = a + l.sum := by
    induction l with
    | nil => intro a; simp
    | cons x xs ih => intro a; simp [List.foldl, pyAdd_eq, ih, List.sum_cons]; ring
  simpa using h 0

/-! ## C3 : the placement miner on the spec's literal text -/

/-- The literal input text of claim C3. -/
def c3Text : Str :=
  "TCS offered 25 students an average package of 6.5 LPA out of 100 students. Highest package: 40 LPA.".data

/-- **C3, counterexample.**  On the claim's literal text the miner's
`companies` list is empty — the company patterns only fire after an anchor
word (company/companies/recruiter/employer/organization/visited), none of
which occurs — and `student_counts` is empty too (the student patterns
require a following placed/selected/offered/recruited/hired, and the
out-of pattern needs a count directly before "out of").  So the claim that
`companies` contains "TCS" and `studentCounts` contains 25 is false. -/
theorem c3_miner_counterexample :
    ¬ ("TCS".data ∈ (extract_placement_data c3Text).companies ∧
       25 ∈ (extract_placement_data c3Text).student_counts) := by
  decide

/-- **C3, amended.**  On the literal text
`"TCS offered 25 students an average package of 6.5 LPA out of 100 students.
Highest package: 40 LPA."` the miner returns `packages` containing
`"6.5 LPA"` and `"40 LPA"` and `statistics.highest_package = "40 LPA"`, but
`companies` and `studentCounts` are empty: the anchored company and
student-count patterns do not match this text. -/
theorem c3_placement_miner_literal :
    (extract_placement_data c3Text).packages = ["6.5 LPA".data, "40 LPA".data] ∧
    (extract_placement_data c3Text).statistics.highest_package = some "40 LPA".data ∧
    (extract_placement_data c3Text).companies = [] ∧
    (extract_placement_data c3Text).student_counts = [] := by
  refine ⟨by decide, by decide, by decide, by decide⟩

/-! ## C8 : the years field and bare `20XX` tokens -/

/-- **C8.**  `re.findall` on a pattern with one capture group returns the
group, and the `20XX` alternative of `PLACEMENT_PATTERNS['year']` lies
outside the group, so every bare year token yields `''` and is dropped by
the `if y` filter: `years` is empty on `"Placements 2023"` even though the
pattern's first alternative matched `2023`, while an anchored
`"batch: 2021"` is kept.  The spec (and the pattern's own first alternative)
expect bare `20XX` tokens to be collected; the code drops them. -/
theorem c8_years_drop_bare_tokens :
    (extract_placement_data "Placements 2023".data).years = [] ∧
    (extract_placement_data "Placement report 2023-24 and batch: 2021".data).years =
      ["2021".data] := by
  refine ⟨by decide, by decide⟩

/-! ## C6 : the recency filter -/

/-- **C6.**  For every document text and title: when no date parses from the
title concatenated with the first 1000 characters of the text, the recency
check returns `(true, none)`; when a date parses, it returns that date with
`isRecent` true exactly when the document is at most `threshold` days old
(the call sites use the default 180). -/
theorem c6_recency_filter (now threshold : ℤ) (text title : Str) :
    (extract_date_from_text (title ++ ' ' :: text.take 1000) = none →
      is_recent_document now text title threshold = (true, none)) ∧
    (∀ d, extract_date_from_text (title ++ ' ' :: text.take 1000) = some d →
      is_recent_document now text title threshold =
        (decide (now - dateOrdinal d ≤ threshold), some d)) := by
  constructor
  · intro h
    simp [is_recent_document, h]
  · intro d h
    simp [is_recent_document, h]

/-- **C6, witness.**  `datetime(2024, 8, 15)` has ordinal 739113; with "now"
at ordinal 739200 the document is 87 days old and recent, and the parsed
date is returned. -/
theorem c6_recency_filter_witness :
    is_recent_document 739200 "Circular dated 15-08-2024 about exams".data [] 180 =
      (decide ((739200 : ℤ) - dateOrdinal ⟨2024, 8, 15⟩ ≤ 180), some ⟨2024, 8, 15⟩) ∧
    is_recent_document 739200 "Circular dated 15-08-2024 about exams".data [] 180 =
      (true, some ⟨2024, 8, 15⟩) := by
  constructor
  · exact (c6_recency_filter 739200 180 "Circular dated 15-08-2024 about exams".data []).2
      ⟨2024, 8, 15⟩ (by decide)
  · decide

/-! ## C7 : the classifier ensemble -/

/-- **C7.**  With no trained model the keyword result is returned tagged
`keyword_only`; with a model present, agreement on a category yields that
category with the average of the two confidences and method
`hybrid_ensemble`, and disagreement yields the higher-confidence result
tagged `sklearn` or `keyword`. -/
theorem c7_classifier_ensemble (f : Str → Option (Str × ℚ)) (text title c : Str)
    (sc : ℚ) :
    (classify none text title =
      ⟨(keyword_based_classification (title ++ ' ' :: title ++ ' ' :: text)).1,
       (keyword_based_classification (title ++ ' ' :: title ++ ' ' :: text)).2,
       "keyword_only".data⟩) ∧
    (f (title ++ ' ' :: title ++ ' ' :: text) = some (c, sc) →
      (c = (keyword_based_classification (title ++ ' ' :: title ++ ' ' :: text)).1 →
        classify (some f) text title =
          ⟨c, ((keyword_based_classification (title ++ ' ' :: title ++ ' ' :: text)).2 + sc) / 2,
           "hybrid_ensemble".data⟩) ∧
      (c ≠ (keyword_based_classification (title ++ ' ' :: title ++ ' ' :: text)).1 →
        sc > (keyword_based_classification (title ++ ' ' :: title ++ ' ' :: text)).2 →
        classify (some f) text title = ⟨c, sc, "sklearn".data⟩) ∧
      (c ≠ (keyword_based_classification (title ++ ' ' :: title ++ ' ' :: text)).1 →
        ¬ sc > (keyword_based_classification (title ++ ' ' :: title ++ ' ' :: text)).2 →
        classify (some f) text title =
          ⟨(keyword_based_classification (title ++ ' ' :: title ++ ' ' :: text)).1,
           (keyword_based_classification (title ++ ' ' :: title ++ ' ' :: text)).2,
           "keyword".data⟩)) := by
  constructor
  · rfl
  · intro hf
    have hsk : classify_with_sklearn (some f) (title ++ ' ' :: title ++ ' ' :: text) =
        (c, sc) := by
      simp only [classify_with_sklearn, hf]
    refine ⟨?_, ?_, ?_⟩
    · intro hc
      unfold classify
      simp only [hsk]
      rw [if_pos hc.symm, ← hc, pyDiv_eq, pyAdd_eq]
    · intro hc hgt
      unfold classify
      simp only [hsk]
      rw [if_neg (Ne.symm hc), if_pos hgt]
    · intro hc hle
      unfold classify
      simp only [hsk]
      rw [if_neg (Ne.symm hc), if_neg hle]

/-- **C7, witness.**  On a text scoring six placement keywords the keyword
classifier gives confidence 0.6; a model prediction of the same category at
confidence 0.8 yields the category with confidence (0.6 + 0.8)/2 = 0.7 and
method `hybrid_ensemble`. -/
theorem c7_classifier_ensemble_witness :
    classify (some (fun _ => some ("placement".data, Rat.divInt 8 10)))
        "placement job interview company hiring salary".data [] =
      ⟨"placement".data, Rat.divInt 7 10, "hybrid_ensemble".data⟩ := by
  have h := ((c7_classifier_ensemble
      (fun _ => some ("placement".data, Rat.divInt 8 10))
      "placement job interview company hiring salary".data [] "placement".data
      (Rat.divInt 8 10)).2 rfl).1 (by decide)
  rw [h]
  rw [show (keyword_based_classification
      ([] ++ ' ' :: [] ++ ' ' :: "placement job interview company hiring salary".data)) =
      ("placement".data, Rat.divInt 6 10) from by decide]
  rw [← pyAdd_eq, ← pyDiv_eq]
  decide

/-! ## C9 : ordered model fallback -/

theorem tryModels_all_err (outcomes : Str → ModelOutcome) :
    ∀ (L : List Str), (∀ m ∈ L, ∃ e, attemptModel (outcomes m) = .error e) →
      ∀ le, ∃ e2, tryModels outcomes L le = .error e2
  | [], _, _ => ⟨_, rfl⟩
  | m :: ms, h, le => by
    obtain ⟨e, he⟩ := h m (List.mem_cons_self m ms)
    have ih := tryModels_all_err outcomes ms
      (fun x hx => h x (List.mem_cons_of_mem _ hx)) (some e)
    simpa [tryModels, he] using ih

theorem tryModels_first_ok (outcomes : Str → ModelOutcome) :
    ∀ (L : List Str) (i : Nat) (hi : i < L.length) (text : Str),
      (∀ j (hj : j < i), ∃ e, attemptModel (outcomes (L.get ⟨j, by omega⟩)) = .error e) →
      attemptModel (outcomes (L.get ⟨i, hi⟩)) = .ok text →
      ∀ le, tryModels outcomes L le = .ok (text, L.get ⟨i, hi⟩)
  | [], i, hi, _, _, _ => absurd hi (by simp)
  | m :: ms, 0, _, text, _, hok => by
    intro le
    have hok' : attemptModel (outcomes m) = .ok text := hok
    simp [tryModels, hok']
  | m :: ms, i + 1, hi, text, hprev, hok => by
    intro le
    obtain ⟨e, he⟩ := hprev 0 (Nat.succ_pos i)
    have he' : attemptModel (outcomes m) = .error e := he
    have ih := tryModels_first_ok outcomes ms i (by simpa using Nat.lt_of_succ_lt_succ hi)
      text (fun j hj => hprev (j + 1) (Nat.succ_lt_succ hj)) hok (some e)
    simp only [tryModels, he']
    exact ih

/-- **C9.**  A failure of one model (a raised exception, an empty candidate
list, a non-STOP finish reason, or missing content parts — all captured by
`attemptModel` returning an error) moves the loop to the next name in the
fixed ordered list `chatbotModels`; the first succeeding model's text is
returned with its name in metadata, and if every name fails the caller gets
the single synthesized apology result with the error recorded in metadata —
no exception escapes `generate_response`. -/
theorem c9_generation_fallback (outcomes : Str → ModelOutcome) :
    ((∀ m ∈ chatbotModels, ∃ e, attemptModel (outcomes m) = .error e) →
      ∃ e, generate_response outcomes =
        { content := apologyMsg, sources := [], modelUsed := none,
          errorMeta := some e, mlEnabled := false }) ∧
    (∀ i (hi : i < chatbotModels.length) (text : Str),
      (∀ j (hj : j < i), ∃ e,
        attemptModel (outcomes (chatbotModels.get ⟨j, by omega⟩)) = .error e) →
      attemptModel (outcomes (chatbotModels.get ⟨i, hi⟩)) = .ok text →
      generate_response outcomes =
        { content := text, sources := [], modelUsed := some (chatbotModels.get ⟨i, hi⟩),
          errorMeta := none, mlEnabled := true }) := by
  constructor
  · intro h
    obtain ⟨e2, he2⟩ := tryModels_all_err outcomes chatbotModels h none
    exact ⟨e2, by simp [generate_response, he2]⟩
  · intro i hi text hprev hok
    have h := tryModels_first_ok outcomes chatbotModels i hi text hprev hok none
    simp [generate_response, h]

/-- **C9, witness.**  A backend raising on every model yields the apology
result; a backend whose first model is blocked (finish reason 2) but whose
second returns a STOP candidate with parts yields the second model's text
tagged with the second model name. -/
theorem c9_generation_fallback_witness :
    (∃ e, generate_response (fun _ => .raised "boom".data) =
      { content := apologyMsg, sources := [], modelUsed := none,
        errorMeta := some e, mlEnabled := false }) ∧
    generate_response (fun m =>
        if m = "gemini-2.5-flash".data then .ok [⟨2, true⟩] "x".data
        else .ok [⟨1, true⟩] "hello".data) =
      { content := "hello".data, sources := [],
        modelUsed := some "gemini-2.0-flash-exp".data,
        errorMeta := none, mlEnabled := true } := by
  constructor
  · exact (c9_generation_fallback (fun _ => .raised "boom".data)).1
      (fun m _ => ⟨"boom".data, rfl⟩)
  · have hprev : ∀ j (hj : j < 1), ∃ e,
        attemptModel ((fun m =>
          if m = "gemini-2.5-flash".data then ModelOutcome.ok [⟨2, true⟩] "x".data
          else ModelOutcome.ok [⟨1, true⟩] "hello".data)
          (chatbotModels.get ⟨j, Nat.lt_trans hj (by decide)⟩)) = .error e := by
      intro j hj
      interval_cases j
      exact ⟨"Response blocked: 2".data, rfl⟩
    exact (c9_generation_fallback _).2 1 (by decide) "hello".data hprev rfl

/-! ## C5 : retrieval filtering and confidence labels -/

theorem mem_zip3_third {a : List α} {b : List β} {c : List γ} :
    ∀ t ∈ zip3 a b c, t.2.2 ∈ c := by
  induction a generalizing b c with
  | nil => intro t ht; simp [zip3] at ht
  | cons x xs ih =>
    intro t ht
    match b, c with
    | [], _ => simp [zip3] at ht
    | _ :: _, [] => simp [zip3] at ht
    | y :: ys, d :: ds =>
      rcases List.mem_cons.mp ht with rfl | ht2
      · exact List.mem_cons_self _ _
      · exact List.mem_cons_of_mem _ (ih t ht2)

/-- **C5.**  Retrieved candidates are filtered to distance < 1.2; no
documents at all gives the low-confidence "not found" answer with no
sources; an emptied filter gives the low-confidence "ambiguous" answer with
at most 2 of the original unfiltered sources; otherwise at most the top 5
filtered candidates are kept and the confidence is "high" exactly when the
best (lowest) retrieved distance is below 0.5, else "medium".  The
hypotheses state what `vector_store.search` guarantees: aligned result lists
ordered by ascending distance (so the head distance is the best). -/
theorem c5_rag_confidence (llm : Str → Str) (res : SearchResults) (q : Str)
    (hm : res.metadatas.length = res.documents.length)
    (hd : res.distances.length = res.documents.length)
    (hs : res.distances.Sorted (· ≤ ·)) :
    (res.documents = [] →
      ragQuery llm res q = ⟨ragNoResultsMsg, [], none, "low".data⟩) ∧
    (res.documents ≠ [] → (∀ d ∈ res.distances, ¬ d < 6/5) →
      ragQuery llm res q = ⟨ragAmbiguousMsg, res.metadatas.take 2, none, "low".data⟩ ∧
      (ragQuery llm res q).sources.length ≤ 2) ∧
    (∀ d0 ds, res.distances = d0 :: ds → d0 < 6/5 →
      ((ragQuery llm res q).confidence =
        if d0 < 1/2 then "high".data else "medium".data) ∧
      (∀ d ∈ res.distances, d0 ≤ d) ∧
      (∃ docs5, (ragQuery llm res q).retrieved = some docs5 ∧ docs5.length ≤ 5) ∧
      (ragQuery llm res q).sources.length ≤ 5) := by
  have h65 : Rat.divInt 6 5 = (6/5 : ℚ) := by
    rw [Rat.divInt_eq_div]; norm_num
  have h12 : Rat.divInt 1 2 = (1/2 : ℚ) := by
    rw [Rat.divInt_eq_div]; norm_num
  obtain ⟨docs, metas, dists⟩ := res
  refine ⟨?_, ?_, ?_⟩
  · intro h
    simp only at h
    subst h
    rfl
  · intro hne hfar
    have hfilter : (zip3 docs metas dists).filter
        (fun t => t.2.2 < Rat.divInt 6 5) = [] := by
      rw [List.filter_eq_nil_iff]
      intro t ht
      have := hfar t.2.2 (mem_zip3_third t ht)
      simpa [h65] using this
    obtain ⟨x, xs, rfl⟩ : ∃ x xs, docs = x :: xs := by
      cases docs with
      | nil => exact absurd rfl hne
      | cons x xs => exact ⟨x, xs, rfl⟩
    have heq : ragQuery llm ⟨x :: xs, metas, dists⟩ q =
        ⟨ragAmbiguousMsg, metas.take 2, none, "low".data⟩ := by
      unfold ragQuery
      simp only [List.isEmpty_cons, hfilter]
      rfl
    refine ⟨heq, ?_⟩
    rw [heq]
    simp
  · intro d0 ds hdist hlt
    simp only at hdist
    subst hdist
    obtain ⟨x, xs, rfl⟩ : ∃ x xs, docs = x :: xs := by
      cases docs with
      | nil => simp at hd
      | cons x xs => exact ⟨x, xs, rfl⟩
    obtain ⟨y, ys, rfl⟩ : ∃ y ys, metas = y :: ys := by
      cases metas with
      | nil => simp at hm
      | cons y ys => exact ⟨y, ys, rfl⟩
    have hmin : ∀ d ∈ d0 :: ds, d0 ≤ d := by
      intro d hdm
      rcases List.mem_cons.mp hdm with rfl | hdm'
      · exact le_refl d
      · exact (List.sorted_cons.mp hs).1 d hdm'
    have hlt' : d0 < Rat.divInt 6 5 := by rw [h65]; exact hlt
    have hfilter : (zip3 (x :: xs) (y :: ys) (d0 :: ds)).filter
        (fun t => t.2.2 < Rat.divInt 6 5) =
        (x, y, d0) :: (zip3 xs ys ds).filter (fun t => t.2.2 < Rat.divInt 6 5) := by
      show ((x, y, d0) :: zip3 xs ys ds).filter _ = _
      simp [List.filter_cons, hlt']
    have heq : ragQuery llm ⟨x :: xs, y :: ys, d0 :: ds⟩ q =
        { answer := llm (rag_build_prompt q (rag_build_context
            ((((x, y, d0) :: (zip3 xs ys ds).filter (fun t => t.2.2 < Rat.divInt 6 5)).map
              (fun t => t.1)).take 5)))
          sources := (((x, y, d0) :: (zip3 xs ys ds).filter
              (fun t => t.2.2 < Rat.divInt 6 5)).map (fun t => t.2.1)).take 5
          retrieved := some ((((x, y, d0) :: (zip3 xs ys ds).filter
              (fun t => t.2.2 < Rat.divInt 6 5)).map (fun t => t.1)).take 5)
          confidence := if d0 < Rat.divInt 1 2 then "high".data else "medium".data } := by
      unfold ragQuery
      simp only [List.isEmpty_cons, hfilter]
      rfl
    refine ⟨?_, hmin, ?_, ?_⟩
    · rw [heq, h12]
    · refine ⟨_, by rw [heq], ?_⟩
      simp
    · rw [heq]
      simp

/-- **C5, witness.**  One retrieved document at distance 0.3 yields
confidence "high"; the hypotheses (aligned lengths, ascending distances) are
discharged on the concrete search result. -/
theorem c5_rag_confidence_witness :
    ((ragQuery (fun _ => "ans".data)
        ⟨["doc1".data], ["m1".data], [Rat.divInt 3 10]⟩ "q".data).confidence =
      if Rat.divInt 3 10 < 1/2 then "high".data else "medium".data) ∧
    (ragQuery (fun _ => "ans".data)
        ⟨["doc1".data], ["m1".data], [Rat.divInt 3 10]⟩ "q".data).confidence =
      "high".data := by
  constructor
  · exact ((c5_rag_confidence (fun _ => "ans".data)
      ⟨["doc1".data], ["m1".data], [Rat.divInt 3 10]⟩ "q".data rfl rfl
      (List.sorted_singleton _)).2.2 (Rat.divInt 3 10) [] rfl
      (by rw [show (6/5 : ℚ) = Rat.divInt 6 5 from by rw [Rat.divInt_eq_div]; norm_num]
          decide)).1
  · decide

/-! ## C10 : only pdf- and image-typed document links are ever extracted -/

theorem insSorted_perm (le : α → α → Bool) (x : α) (l : List α) :
    List.Perm (insSorted le x l) (x :: l) := by
  induction l with
  | nil => rfl
  | cons y ys ih =>
    simp only [insSorted]
    split
    · rfl
    · exact (List.Perm.cons y ih).trans (List.Perm.swap x y ys)

theorem insSort_perm (le : α → α → Bool) (l : List α) : List.Perm (insSort le l) l := by
  induction l with
  | nil => rfl
  | cons x xs ih => exact (insSorted_perm le x (insSort le xs)).trans (List.Perm.cons x ih)

theorem extractStep_shift (now : ℤ) (pdfX imgX : Str → Str)
    (acc : List ExtractedDoc) (doc : DocLink) :
    extractStep now pdfX imgX acc doc = acc ++ extractStep now pdfX imgX [] doc := by
  simp only [extractStep]
  split_ifs <;> simp

theorem foldl_acc_append (f : List β → α → List β)
    (hf : ∀ (acc : List β) (x : α), f acc x = acc ++ f [] x) :
    ∀ (l : List α) (acc : List β), l.foldl f acc = acc ++ l.foldl f [] := by
  intro l
  induction l with
  | nil => intro acc; simp
  | cons x xs ih =>
    intro acc
    simp only [List.foldl_cons]
    rw [ih (f acc x), ih (f [] x), hf acc x, List.append_assoc]

theorem extractStep_mem (now : ℤ) (pdfX imgX : Str → Str) (doc : DocLink)
    (e : ExtractedDoc) (he : e ∈ extractStep now pdfX imgX [] doc) :
    doc.url = e.url ∧ doc.dtype = e.dtype ∧
      (doc.dtype = "pdf".data ∨ doc.dtype = "image".data) := by
  simp only [extractStep] at he
  split_ifs at he <;>
    simp only [List.nil_append, List.mem_singleton, List.not_mem_nil] at he <;>
    subst he <;> simp_all

theorem extractDocumentsLoop_sub (now : ℤ) (pdfX imgX : Str → Str) :
    ∀ (docs : List DocLink) (e : ExtractedDoc),
      e ∈ extractDocumentsLoop now pdfX imgX docs →
      ∃ d, d ∈ docs ∧ d.url = e.url ∧ d.dtype = e.dtype ∧
        (d.dtype = "pdf".data ∨ d.dtype = "image".data) := by
  intro docs
  induction docs with
  | nil => intro e he; simp [extractDocumentsLoop] at he
  | cons d ds ih =>
    intro e he
    rw [extractDocumentsLoop, List.foldl_cons,
      foldl_acc_append _ (extractStep_shift now pdfX imgX) ds] at he
    rcases List.mem_append.mp he with he1 | he2
    · obtain ⟨h1, h2, h3⟩ := extractStep_mem now pdfX imgX d e he1
      exact ⟨d, List.mem_cons_self _ _, h1, h2, h3⟩
    · obtain ⟨d2, hd2, h1, h2, h3⟩ := ih e he2
      exact ⟨d2, List.mem_cons_of_mem _ hd2, h1, h2, h3⟩

/-- **C10.**  Every entry of `extractedDocuments` stems from a collected
document link typed `pdf` or `image` with the same URL and type — links typed
`document` are never dispatched by the extraction loop — and the collection
step types a case-sensitive `.pdf` suffix as `pdf` while `.doc`, `.docx` and
an uppercase `.PDF` (which passes the case-insensitive document test) are
typed `document`, as shown on a concrete anchor list. -/
theorem c10_document_extraction_typing :
    (∀ (now : ℤ) (pdfX imgX : Str → Str) (pu pt : Str) (docs : List DocLink)
        (e : ExtractedDoc), e ∈ extract_documents now pdfX imgX pu pt docs →
      ∃ d, d ∈ docs ∧ d.url = e.url ∧ d.dtype = e.dtype ∧
        (d.dtype = "pdf".data ∨ d.dtype = "image".data)) ∧
    ((collectLinks "http://h".data "Home".data
        [("http://h/a.PDF".data, "Stats".data), ("http://h/b.doc".data, "Form".data),
         ("http://h/c.docx".data, "Doc".data), ("http://h/d.pdf".data, "Report".data),
         ("http://h/e.png".data, "placement data".data)]).2.map
        (fun d => (d.url, d.dtype)) =
      [("http://h/a.PDF".data, "document".data), ("http://h/b.doc".data, "document".data),
       ("http://h/c.docx".data, "document".data), ("http://h/d.pdf".data, "pdf".data),
       ("http://h/e.png".data, "image".data)]) := by
  constructor
  · intro now pdfX imgX pu pt docs e he
    simp only [extract_documents] at he
    split at he
    · obtain ⟨d, hd, h1, h2, h3⟩ := extractDocumentsLoop_sub now pdfX imgX _ e he
      refine ⟨d, ?_, h1, h2, h3⟩
      have hd2 := List.Sublist.mem hd (List.take_sublist _ _)
      exact ((insSort_perm _ docs).mem_iff).mp hd2
    · simp at he
  · decide

/-- **C10, witness.**  A placement page with one pdf-typed document link
yields an extracted document whose source link is typed `pdf`. -/
theorem c10_document_extraction_typing_witness :
    ∃ d, d ∈ [({ ltext := "t".data, url := "http://h/r.pdf".data, dtype := "pdf".data,
                 priority := 0 } : DocLink)] ∧
      d.url = ((extract_documents 0 (fun _ => "x".data) (fun _ => "x".data)
        "http://h/placements".data []
        [{ ltext := "t".data, url := "http://h/r.pdf".data, dtype := "pdf".data,
           priority := 0 }]).headI).url ∧
      d.dtype = ((extract_documents 0 (fun _ => "x".data) (fun _ => "x".data)
        "http://h/placements".data []
        [{ ltext := "t".data, url := "http://h/r.pdf".data, dtype := "pdf".data,
           priority := 0 }]).headI).dtype ∧
      (d.dtype = "pdf".data ∨ d.dtype = "image".data) := by
  exact c10_document_extraction_typing.1 0 (fun _ => "x".data) (fun _ => "x".data)
    "http://h/placements".data []
    [{ ltext := "t".data, url := "http://h/r.pdf".data, dtype := "pdf".data,
       priority := 0 }]
    ((extract_documents 0 (fun _ => "x".data) (fun _ => "x".data)
      "http://h/placements".data []
      [{ ltext := "t".data, url := "http://h/r.pdf".data, dtype := "pdf".data,
         priority := 0 }]).headI) (by decide)

/-! ## C2 : bounded traversal -/

theorem scrapeLinks_inv (scrape : Str → List Str → List PageRec × List Str)
    (maxDepth : Nat)
    (hp : ∀ (url : Str) (visited : List Str),
      (∀ rec ∈ (scrape url visited).1, rec.depth < maxDepth) ∧
      (visited.length < 250 → (scrape url visited).2.length ≤ 250) ∧
      (visited.Nodup → (scrape url visited).2.Nodup)) :
    ∀ (urls : List Str) (firstLoop : Bool) (visited : List Str),
      (∀ rec ∈ (scrapeLinks scrape firstLoop urls visited).1, rec.depth < maxDepth) ∧
      (visited.length ≤ 250 → (scrapeLinks scrape firstLoop urls visited).2.length ≤ 250) ∧
      (visited.Nodup → (scrapeLinks scrape firstLoop urls visited).2.Nodup) := by
  intro urls
  induction urls with
  | nil =>
    intro fl visited
    exact ⟨fun rec h => absurd h (List.not_mem_nil _), fun h => h, fun h => h⟩
  | cons u us ih =>
    intro fl visited
    simp only [scrapeLinks]
    by_cases hcond : ((if fl then normalize_url u else u) ∉ visited ∧
        visited.length < (if fl then 250 else 200))
    · rw [if_pos hcond]
      obtain ⟨hp1, hp2, hp3⟩ := hp (if fl then normalize_url u else u) visited
      have hlt : visited.length < 250 := by
        rcases hcond with ⟨-, h2⟩
        cases fl
        · simp only [Bool.false_eq_true, if_false] at h2
          omega
        · simp only [if_true] at h2
          omega
      obtain ⟨ih1, ih2, ih3⟩ := ih fl (scrape (if fl then normalize_url u else u) visited).2
      refine ⟨?_, ?_, ?_⟩
      · intro rec hrec
        rcases List.mem_append.mp hrec with h1 | h1
        · exact hp1 rec h1
        · exact ih1 rec h1
      · intro _
        exact ih2 (hp2 hlt)
      · intro hnd
        exact ih3 (hp3 hnd)
    · rw [if_neg hcond]
      exact ih fl visited

theorem scrapePage_inv (env : CrawlEnv) (maxDepth : Nat) :
    ∀ (fuel curDepth : Nat) (url : Str) (visited : List Str),
      (∀ rec ∈ (scrapePage env maxDepth fuel curDepth url visited).1,
        rec.depth < maxDepth) ∧
      (visited.length < 250 →
        (scrapePage env maxDepth fuel curDepth url visited).2.length ≤ 250) ∧
      (visited.Nodup → (scrapePage env maxDepth fuel curDepth url visited).2.Nodup) := by
  intro fuel
  induction fuel with
  | zero =>
    intro curDepth url visited
    exact ⟨fun rec h => absurd h (List.not_mem_nil _), fun h => Nat.le_of_lt h, fun h => h⟩
  | succ fuel ih =>
    intro curDepth url visited
    simp only [scrapePage]
    split
    · exact ⟨fun rec h => absurd h (List.not_mem_nil _), fun h => Nat.le_of_lt h, fun h => h⟩
    · rename_i hg
      push_neg at hg
      obtain ⟨hd, hv⟩ := hg
      cases hweb : env.web url with
      | none =>
        refine ⟨fun rec h => absurd h (List.not_mem_nil _), ?_, ?_⟩
        · intro h
          simp only [List.length_append, List.length_singleton]
          omega
        · intro h
          simp [List.nodup_append, hv, h]
      | some page =>
        dsimp only
        have hlp := scrapeLinks_inv (scrapePage env maxDepth fuel (curDepth + 1))
          maxDepth (ih (curDepth + 1))
        split
        · rename_i hdd
          obtain ⟨l1a, l1b, l1c⟩ := hlp
            (linksToFollow (collectLinks url page.title page.anchors).1) true
            (visited ++ [url])
          obtain ⟨l2a, l2b, l2c⟩ := hlp
            (linksToFollow (collectLinks url page.title page.anchors).1) false
            (scrapeLinks (scrapePage env maxDepth fuel (curDepth + 1)) true
              (linksToFollow (collectLinks url page.title page.anchors).1)
              (visited ++ [url])).2
          refine ⟨?_, ?_, ?_⟩
          · intro rec hrec
            rcases List.mem_cons.mp hrec with rfl | h1
            · exact hd
            · rcases List.mem_append.mp h1 with h2 | h2
              · exact l1a rec h2
              · exact l2a rec h2
          · intro h250
            refine l2b (l1b ?_)
            simp only [List.length_append, List.length_singleton]
            omega
          · intro hnd
            refine l2c (l1c ?_)
            simp [List.nodup_append, hv, hnd]
        · refine ⟨?_, ?_, ?_⟩
          · intro rec hrec
            rcases List.mem_singleton.mp hrec with rfl
            exact hd
          · intro h
            simp only [List.length_append, List.length_singleton]
            omega
          · intro h
            simp [List.nodup_append, hv, h]

/-- **C2.**  Bounded traversal: in every crawl with depth bound `maxDepth`,
every returned page record has `depth < maxDepth`; the visited set ends (and,
since it only ever grows, stays) at no more than 250 URLs; and no URL is ever
entered twice (the visited list has no duplicates). -/
theorem c2_bounded_traversal (env : CrawlEnv) (maxDepth : Nat) (seed : Str) :
    (∀ rec ∈ (crawlWebsite env maxDepth seed).1, rec.depth < maxDepth) ∧
    (crawlWebsite env maxDepth seed).2.length ≤ 250 ∧
    (crawlWebsite env maxDepth seed).2.Nodup := by
  obtain ⟨h1, h2, h3⟩ := scrapePage_inv env maxDepth maxDepth 0 seed []
  exact ⟨h1, h2 (by simp), h3 List.nodup_nil⟩

/-- **C2, witness.**  A one-page site crawled with `maxDepth = 1`. -/
theorem c2_bounded_traversal_witness :
    ((crawlWebsite ⟨fun _ => some ⟨"t".data, []⟩, 0, fun _ => [], fun _ => []⟩ 1
        "http://h/x".data).1.headI).depth < 1 ∧
    (crawlWebsite ⟨fun _ => some ⟨"t".data, []⟩, 0, fun _ => [], fun _ => []⟩ 1
        "http://h/x".data).2.length ≤ 250 ∧
    (crawlWebsite ⟨fun _ => some ⟨"t".data, []⟩, 0, fun _ => [], fun _ => []⟩ 1
        "http://h/x".data).2.Nodup := by
  obtain ⟨h1, h2, h3⟩ := c2_bounded_traversal
    ⟨fun _ => some ⟨"t".data, []⟩, 0, fun _ => [], fun _ => []⟩ 1 "http://h/x".data
  exact ⟨h1 _ (by decide), h2, h3⟩

/-! ## C1 : the deduplicating save loop -/

theorem updateFirst_map_url (u h : Str) (l : List KBRecord) :
    (updateFirst u h l).map (fun r => r.url) = l.map (fun r => r.url) := by
  induction l with
  | nil => rfl
  | cons r rs ih =>
    simp only [updateFirst]
    split
    · rfl
    · simp [ih]

theorem updateFirst_hash_mem (u h : Str) (l : List KBRecord) (r : KBRecord)
    (hr : r ∈ updateFirst u h l) : r.hash = h ∨ r ∈ l := by
  induction l with
  | nil => simp [updateFirst] at hr
  | cons r0 rs ih =>
    simp only [updateFirst] at hr
    split at hr
    · rcases List.mem_cons.mp hr with rfl | hr2
      · exact Or.inl rfl
      · exact Or.inr (List.mem_cons_of_mem _ hr2)
    · rcases List.mem_cons.mp hr with rfl | hr2
      · exact Or.inr (List.mem_cons_self _ _)
      · rcases ih hr2 with h1 | h1
        · exact Or.inl h1
        · exact Or.inr (List.mem_cons_of_mem _ h1)

theorem savePage_url_mono (md5 : Str → Str) (st : SaveState) (p : CrawlPage) (u : Str)
    (hu : u ∈ st.store.map (fun r => r.url)) :
    u ∈ (savePage md5 st p).store.map (fun r => r.url) := by
  simp only [savePage]
  split
  · exact hu
  · split
    · split
      · simpa [updateFirst_map_url] using hu
      · exact hu
    · simp only [List.map_append]
      exact List.mem_append_left _ hu

theorem savePage_hash_inv (md5 : Str → Str) (st : SaveState) (p : CrawlPage)
    (hinv : ∀ r ∈ st.store, r.hash ∈ st.hashes) :
    ∀ r ∈ (savePage md5 st p).store, r.hash ∈ (savePage md5 st p).hashes := by
  simp only [savePage]
  split
  · exact hinv
  · split
    · split
      · intro r hr
        rcases updateFirst_hash_mem _ _ _ r hr with h1 | h1
        · simp [h1]
        · exact List.mem_cons_of_mem _ (hinv r h1)
      · exact hinv
    · intro r hr
      rcases List.mem_append.mp hr with h1 | h1
      · exact List.mem_cons_of_mem _ (hinv r h1)
      · rcases List.mem_singleton.mp h1 with rfl
        exact List.mem_cons_self _ _

theorem savePage_nodup (md5 : Str → Str) (st : SaveState) (p : CrawlPage)
    (hnd : (st.store.map (fun r => r.url)).Nodup) :
    ((savePage md5 st p).store.map (fun r => r.url)).Nodup := by
  simp only [savePage]
  split
  · exact hnd
  · split
    · split
      · simpa [updateFirst_map_url] using hnd
      · exact hnd
    · rename_i hfind
      have hnotin : normalize_url p.url ∉ st.store.map (fun r => r.url) := by
        intro hmem
        rcases List.mem_map.mp hmem with ⟨r, hrm, hru⟩
        have := List.find?_eq_none.mp hfind r hrm
        simp [hru] at this
      rw [List.map_append, List.nodup_append]
      refine ⟨hnd, List.nodup_singleton _, ?_⟩
      intro a ha hb
      rcases List.mem_singleton.mp hb with rfl
      exact hnotin ha

theorem saveFold_url_mono (md5 : Str → Str) (ps : List CrawlPage) :
    ∀ (st : SaveState) (u : Str), u ∈ st.store.map (fun r => r.url) →
      u ∈ (ps.foldl (savePage md5) st).store.map (fun r => r.url) := by
  induction ps with
  | nil => intro st u hu; exact hu
  | cons p ps ih => intro st u hu; exact ih _ u (savePage_url_mono md5 st p u hu)

theorem saveFold_nodup (md5 : Str → Str) (ps : List CrawlPage) :
    ∀ (st : SaveState), (st.store.map (fun r => r.url)).Nodup →
      ((ps.foldl (savePage md5) st).store.map (fun r => r.url)).Nodup := by
  induction ps with
  | nil => intro st hnd; exact hnd
  | cons p ps ih => intro st hnd; exact ih _ (savePage_nodup md5 st p hnd)

theorem saveFold_skipped (md5 : Str → Str) (ps : List CrawlPage) :
    ∀ (st : SaveState), (∀ r ∈ st.store, r.hash ∈ st.hashes) →
      (ps.foldl (savePage md5) st).skippedCount
        = st.skippedCount + dupCount md5 ps st.hashes := by
  induction ps with
  | nil => intro st _; simp [dupCount]
  | cons p ps ih =>
    intro st hinv
    simp only [List.foldl_cons, dupCount]
    by_cases hdup : calculate_content_hash md5 p.content ∈ st.hashes
    · have hsp : savePage md5 st p = { st with skippedCount := st.skippedCount + 1 } := by
        simp only [savePage]
        rw [if_pos (by simp [is_duplicate_content, hdup])]
      rw [hsp, if_pos hdup, ih { st with skippedCount := st.skippedCount + 1 } hinv]
      dsimp only
      omega
    · have hkey : (savePage md5 st p).skippedCount = st.skippedCount ∧
          (savePage md5 st p).hashes
            = calculate_content_hash md5 p.content :: st.hashes := by
        simp only [savePage]
        rw [if_neg (by simp [is_duplicate_content, hdup])]
        cases hf : st.store.find? (fun r => r.url = normalize_url p.url) with
        | none => exact ⟨rfl, rfl⟩
        | some r1 =>
          have hr1m := List.mem_of_find?_eq_some hf
          have hne : r1.hash ≠ calculate_content_hash md5 p.content :=
            fun he => hdup (he ▸ hinv r1 hr1m)
          dsimp only
          rw [if_pos hne]
          exact ⟨rfl, rfl⟩
      rw [if_neg hdup, ih (savePage md5 st p) (savePage_hash_inv md5 st p hinv),
        hkey.1, hkey.2]

theorem find_url_some (l : List KBRecord) (u : Str)
    (hu : u ∈ l.map (fun r => r.url)) :
    ∃ r, l.find? (fun r => r.url = u) = some r := by
  rcases List.mem_map.mp hu with ⟨r0, hr0, hru⟩
  have hs : (l.find? (fun r => r.url = u)).isSome := by
    rw [List.find?_isSome]
    exact ⟨r0, hr0, by simp [hru]⟩
  exact Option.isSome_iff_exists.mp hs

theorem saveRun_stable_aux (md5 : Str → Str) :
    ∀ (ps : List CrawlPage) (st1 st2 : SaveState),
      (∀ r ∈ st1.store, r.hash ∈ st1.hashes) →
      (∀ r ∈ st2.store, r.hash ∈ st2.hashes) →
      (∀ x ∈ st1.hashes, x ∈ st2.hashes) →
      (∀ u ∈ (ps.foldl (savePage md5) st1).store.map (fun r => r.url),
          u ∈ st2.store.map (fun r => r.url)) →
      (ps.foldl (savePage md5) st2).store.map (fun r => r.url)
        = st2.store.map (fun r => r.url) := by
  intro ps
  induction ps with
  | nil => intro st1 st2 _ _ _ _; rfl
  | cons p ps ih =>
    intro st1 st2 hinv1 hinv2 hsub hU
    simp only [List.foldl_cons] at hU ⊢
    by_cases hd1 : calculate_content_hash md5 p.content ∈ st1.hashes
    · have hd2 : calculate_content_hash md5 p.content ∈ st2.hashes := hsub _ hd1
      have e1 : savePage md5 st1 p = { st1 with skippedCount := st1.skippedCount + 1 } := by
        simp only [savePage]
        rw [if_pos (by simp [is_duplicate_content, hd1])]
      have e2 : savePage md5 st2 p = { st2 with skippedCount := st2.skippedCount + 1 } := by
        simp only [savePage]
        rw [if_pos (by simp [is_duplicate_content, hd2])]
      rw [e2]
      rw [e1] at hU
      exact ih { st1 with skippedCount := st1.skippedCount + 1 }
        { st2 with skippedCount := st2.skippedCount + 1 } hinv1 hinv2 hsub hU
    · have hst1 : (savePage md5 st1 p).hashes
            = calculate_content_hash md5 p.content :: st1.hashes ∧
          normalize_url p.url ∈ (savePage md5 st1 p).store.map (fun r => r.url) := by
        simp only [savePage]
        rw [if_neg (by simp [is_duplicate_content, hd1])]
        cases hf : st1.store.find? (fun r => r.url = normalize_url p.url) with
        | none =>
          refine ⟨rfl, ?_⟩
          simp
        | some r1 =>
          have hr1m := List.mem_of_find?_eq_some hf
          have hne : r1.hash ≠ calculate_content_hash md5 p.content :=
            fun he => hd1 (he ▸ hinv1 r1 hr1m)
          dsimp only
          rw [if_pos hne]
          refine ⟨rfl, ?_⟩
          rw [updateFirst_map_url]
          have hp := List.find?_some hf
          simp only [decide_eq_true_eq] at hp
          exact List.mem_map.mpr ⟨r1, hr1m, hp⟩
      have hnu2 : normalize_url p.url ∈ st2.store.map (fun r => r.url) :=
        hU _ (saveFold_url_mono md5 ps _ _ hst1.2)
      have hinv1' := savePage_hash_inv md5 st1 p hinv1
      by_cases hd2 : calculate_content_hash md5 p.content ∈ st2.hashes
      · have e2 : savePage md5 st2 p = { st2 with skippedCount := st2.skippedCount + 1 } := by
          simp only [savePage]
          rw [if_pos (by simp [is_duplicate_content, hd2])]
        rw [e2]
        refine ih (savePage md5 st1 p) { st2 with skippedCount := st2.skippedCount + 1 }
          hinv1' hinv2 ?_ hU
        intro x hx
        rw [hst1.1] at hx
        rcases List.mem_cons.mp hx with rfl | hx2
        · exact hd2
        · exact hsub x hx2
      · obtain ⟨r2, hf2⟩ := find_url_some st2.store (normalize_url p.url) hnu2
        have hr2m := List.mem_of_find?_eq_some hf2
        have hne2 : r2.hash ≠ calculate_content_hash md5 p.content :=
          fun he => hd2 (he ▸ hinv2 r2 hr2m)
        have e2 : savePage md5 st2 p =
            { st2 with store := updateFirst (normalize_url p.url)
                         (calculate_content_hash md5 p.content) st2.store
                       hashes := calculate_content_hash md5 p.content :: st2.hashes
                       updatedCount := st2.updatedCount + 1 } := by
          simp only [savePage]
          rw [if_neg (by simp [is_duplicate_content, hd2]), hf2]
          dsimp only
          rw [if_pos hne2]
        have hmap2 : (updateFirst (normalize_url p.url)
              (calculate_content_hash md5 p.content) st2.store).map (fun r => r.url)
            = st2.store.map (fun r => r.url) := updateFirst_map_url _ _ _
        rw [e2]
        have hres := ih (savePage md5 st1 p)
          { st2 with store := updateFirst (normalize_url p.url)
                       (calculate_content_hash md5 p.content) st2.store
                     hashes := calculate_content_hash md5 p.content :: st2.hashes
                     updatedCount := st2.updatedCount + 1 }
          hinv1' (e2 ▸ savePage_hash_inv md5 st2 p hinv2) ?_ ?_
        · rw [hres]
          exact hmap2
        · intro x hx
          rw [hst1.1] at hx
          rcases List.mem_cons.mp hx with rfl | hx2
          · exact List.mem_cons_self _ _
          · exact List.mem_cons_of_mem _ (hsub x hx2)
        · intro u hu
          have := hU u hu
          show u ∈ (updateFirst _ _ st2.store).map (fun r => r.url)
          rw [hmap2]
          exact this

/-- **C1** (amended).  The dedup save loop: (1) the store keeps at most one
record per normalized URL — a run preserves uniqueness of the stored URLs;
(2) starting from an EMPTY store, saving the same crawl result twice leaves
the store size unchanged after the second run; (3) `skippedDuplicates`
equals the number of pages whose hash is already in the evolving hash set
seeded with the stored hashes.  (The spec claims (2) for every starting
store; the counterexample shows a preloaded store where the second
identical run grows the store.) -/
theorem c1_dedup_save_loop (md5 : Str → Str) (pages : List CrawlPage)
    (store0 : List KBRecord) :
    ((store0.map (fun r => r.url)).Nodup →
      ((saveRun md5 pages store0).store.map (fun r => r.url)).Nodup) ∧
    ((saveRun md5 pages (saveRun md5 pages []).store).store.length
      = (saveRun md5 pages []).store.length) ∧
    ((saveRun md5 pages store0).skippedCount
      = dupCount md5 pages (store0.map (fun r => r.hash))) := by
  refine ⟨?_, ?_, ?_⟩
  · intro hnd
    exact saveFold_nodup md5 pages _ hnd
  · have hmain := saveRun_stable_aux md5 pages ⟨[], [], 0, 0, 0⟩
      ⟨(saveRun md5 pages []).store,
        (saveRun md5 pages []).store.map (fun r => r.hash), 0, 0, 0⟩
      (by simp) (fun r hr => List.mem_map_of_mem _ hr) (by simp)
      (fun u hu => hu)
    have h1 : (saveRun md5 pages (saveRun md5 pages []).store).store.map (fun r => r.url)
        = (saveRun md5 pages []).store.map (fun r => r.url) := hmain
    calc (saveRun md5 pages (saveRun md5 pages []).store).store.length
        = ((saveRun md5 pages (saveRun md5 pages []).store).store.map
            (fun r => r.url)).length := (List.length_map _ _).symm
      _ = ((saveRun md5 pages []).store.map (fun r => r.url)).length := by rw [h1]
      _ = (saveRun md5 pages []).store.length := List.length_map _ _
  · have h2 := saveFold_skipped md5 pages
      ⟨store0, store0.map (fun r => r.hash), 0, 0, 0⟩
      (fun r hr => List.mem_map_of_mem _ hr)
    simpa using h2

/-- **C1, counterexample.**  With an identity digest, a preloaded store
`[(w, hq)]` and the crawl result `[(w, hr), (v, hq)]`: the first run updates
`w` (skipping `v`, whose hash matches the preloaded one), and the second
identical run then inserts `v` — the stored-entry count grows from 1 to 2,
refuting "crawling the same unchanged seed a second time never increases
the stored-entry count" for non-empty starting stores. -/
theorem c1_second_run_growth_counterexample :
    (saveRun (fun s => s) [⟨"w".data, "hr".data⟩, ⟨"v".data, "hq".data⟩]
        (saveRun (fun s => s) [⟨"w".data, "hr".data⟩, ⟨"v".data, "hq".data⟩]
          [⟨"w".data, "hq".data⟩]).store).store.length
      = (saveRun (fun s => s) [⟨"w".data, "hr".data⟩, ⟨"v".data, "hq".data⟩]
          [⟨"w".data, "hq".data⟩]).store.length + 1 := by
  decide

/-- **C1, witness.**  Concrete instance of the amended theorem. -/
theorem c1_dedup_save_loop_witness :
    (([⟨"w".data, "h1".data⟩] : List KBRecord).map (fun r => r.url)).Nodup ∧
    ((saveRun (fun s => s) [⟨"v".data, "h2".data⟩]
        [⟨"w".data, "h1".data⟩]).store.map (fun r => r.url)).Nodup := by
  exact ⟨by decide, (c1_dedup_save_loop (fun s => s) [⟨"v".data, "h2".data⟩]
    [⟨"w".data, "h1".data⟩]).1 (by decide)⟩

/-! ## C4 : URL normalization -/

theorem toLower_cases (c : Char) :
    c.toLower = c ∨
      ∃ n, 65 ≤ n ∧ n ≤ 90 ∧ c.toLower = Char.ofNat (n + 32) := by
  unfold Char.toLower
  by_cases h : c.toNat ≥ 65 ∧ c.toNat ≤ 90
  · right
    exact ⟨c.toNat, h.1, h.2, by rw [if_pos h]⟩
  · left
    rw [if_neg h]

theorem toLower_idem (c : Char) : c.toLower.toLower = c.toLower := by
  rcases toLower_cases c with h | ⟨n, h1, h2, h⟩
  · rw [h, h]
  · rw [h]
    interval_cases n <;> decide

theorem toLower_isAlpha (c : Char) (hc : c.isAlpha = true) :
    c.toLower.isAlpha = true := by
  rcases toLower_cases c with h | ⟨n, h1, h2, h⟩
  · rw [h]; exact hc
  · rw [h]
    interval_cases n <;> decide

theorem toLower_schemeChar (c : Char) (hc : schemeChar c = true) :
    schemeChar c.toLower = true := by
  rcases toLower_cases c with h | ⟨n, h1, h2, h⟩
  · rw [h]; exact hc
  · rw [h]
    interval_cases n <;> decide

theorem toLower_netlocChar (c : Char) (hc : netlocChar c = true) :
    netlocChar c.toLower = true := by
  rcases toLower_cases c with h | ⟨n, h1, h2, h⟩
  · rw [h]; exact hc
  · rw [h]
    interval_cases n <;> decide

theorem lowerStr_idem (s : Str) : lowerStr (lowerStr s) = lowerStr s := by
  induction s with
  | nil => rfl
  | cons c cs ih =>
    show Char.toLower c.toLower :: lowerStr (lowerStr cs) = Char.toLower c :: lowerStr cs
    rw [toLower_idem, ih]

theorem splitFirst_eq_some (t : Char) :
    ∀ (l a b : Str), splitFirst? t l = some (a, b) → l = a ++ t :: b ∧ t ∉ a := by
  intro l
  induction l with
  | nil => intro a b h; simp [splitFirst?] at h
  | cons c s ih =>
    intro a b h
    simp only [splitFirst?] at h
    split at h
    · rename_i hc
      simp only [Option.some.injEq, Prod.mk.injEq] at h
      obtain ⟨ha, hb⟩ := h
      subst ha; subst hb; subst hc
      exact ⟨rfl, List.not_mem_nil _⟩
    · rename_i hc
      cases hs : splitFirst? t s with
      | none => rw [hs] at h; simp at h
      | some p =>
        rw [hs] at h
        simp only [Option.map_some', Option.some.injEq, Prod.mk.injEq] at h
        obtain ⟨ha, hb⟩ := h
        obtain ⟨h1, h2⟩ := ih p.1 p.2 (by rw [hs])
        subst ha; subst hb
        refine ⟨by rw [h1]; rfl, ?_⟩
        intro hmem
        rcases List.mem_cons.mp hmem with heq | hmem2
        · exact hc heq.symm
        · exact h2 hmem2

theorem splitFirst_eq_none (t : Char) :
    ∀ l : Str, t ∉ l → splitFirst? t l = none := by
  intro l
  induction l with
  | nil => intro _; rfl
  | cons c s ih =>
    intro h
    have hc : ¬c = t := fun he => h (he ▸ List.mem_cons_self _ _)
    have hs : t ∉ s := fun hm => h (List.mem_cons_of_mem _ hm)
    simp only [splitFirst?, if_neg hc, ih hs, Option.map_none']

theorem splitFirst_append (t : Char) (b : Str) :
    ∀ a : Str, t ∉ a → splitFirst? t (a ++ t :: b) = some (a, b) := by
  intro a
  induction a with
  | nil => intro _; simp [splitFirst?]
  | cons c s ih =>
    intro h
    have hc : ¬c = t := fun he => h (he ▸ List.mem_cons_self _ _)
    have hs : t ∉ s := fun hm => h (List.mem_cons_of_mem _ hm)
    simp only [List.cons_append, splitFirst?, if_neg hc, List.append_eq]
    rw [ih hs]
    rfl

theorem takeWhile_append_cons (pred : Char → Bool) (c : Char) (r : Str)
    (hc : pred c = false) :
    ∀ a : Str, (∀ x ∈ a, pred x = true) →
      (a ++ c :: r).takeWhile pred = a ∧ (a ++ c :: r).dropWhile pred = c :: r := by
  intro a
  induction a with
  | nil =>
    intro _
    simp [List.takeWhile, List.dropWhile, hc]
  | cons y ys ih =>
    intro h
    have hy : pred y = true := h y (List.mem_cons_self _ _)
    have hys := ih (fun x hx => h x (List.mem_cons_of_mem _ hx))
    simp only [List.cons_append, List.takeWhile_cons, List.dropWhile_cons, hy, if_true]
    exact ⟨by rw [hys.1], hys.2⟩

theorem dropWhile_shape (pred : Char → Bool) :
    ∀ l : Str, l.dropWhile pred = [] ∨
      ∃ c r, l.dropWhile pred = c :: r ∧ pred c = false := by
  intro l
  induction l with
  | nil => exact Or.inl rfl
  | cons c s ih =>
    by_cases hc : pred c = true
    · rw [List.dropWhile_cons, if_pos hc]
      exact ih
    · right
      rw [List.dropWhile_cons, if_neg hc]
      exact ⟨c, s, rfl, by simpa using hc⟩

theorem dropWhile_suffix_ex (pred : Char → Bool) :
    ∀ l : Str, ∃ s, l = s ++ l.dropWhile pred := by
  intro l
  induction l with
  | nil => exact ⟨[], rfl⟩
  | cons c r ih =>
    by_cases hc : pred c = true
    · obtain ⟨s, hs⟩ := ih
      refine ⟨c :: s, ?_⟩
      rw [List.dropWhile_cons, if_pos hc, List.cons_append, ← hs]
    · refine ⟨[], ?_⟩
      rw [List.dropWhile_cons, if_neg hc, List.nil_append]

theorem rstrip_pre (p : Str) : ∃ t, p = rstripSlash p ++ t := by
  obtain ⟨s, hs⟩ := dropWhile_suffix_ex (fun c => c = '/') p.reverse
  refine ⟨s.reverse, ?_⟩
  have : p.reverse.reverse = (s ++ p.reverse.dropWhile (fun c => c = '/')).reverse := by
    rw [← hs]
  rw [List.reverse_reverse, List.reverse_append] at this
  exact this

theorem rstrip_idem (p : Str) : rstripSlash (rstripSlash p) = rstripSlash p := by
  unfold rstripSlash
  rw [List.reverse_reverse, List.dropWhile_idempotent]

theorem rstrip_sub (p : Str) (x : Char) (hx : x ∈ rstripSlash p) : x ∈ p := by
  unfold rstripSlash at hx
  rw [List.mem_reverse] at hx
  have := (List.dropWhile_sublist _).subset hx
  rwa [List.mem_reverse] at this

theorem rstrip_slash_head (p1 : Str) :
    rstripSlash ('/' :: p1) = [] ∨ ∃ q1, rstripSlash ('/' :: p1) = '/' :: q1 := by
  obtain ⟨t, ht⟩ := rstrip_pre ('/' :: p1)
  cases hr : rstripSlash ('/' :: p1) with
  | nil => exact Or.inl rfl
  | cons c q1 =>
    right
    rw [hr, List.cons_append] at ht
    have hc : '/' = c := (List.cons.inj ht).1
    exact ⟨q1, by rw [← hc]⟩

theorem splitFirst_none_mem (t : Char) :
    ∀ l : Str, splitFirst? t l = none → t ∉ l := by
  intro l
  induction l with
  | nil => intro _; exact List.not_mem_nil _
  | cons c s ih =>
    intro h
    simp only [splitFirst?] at h
    split at h
    · simp at h
    · rename_i hc
      rw [Option.map_eq_none'] at h
      intro hm
      rcases List.mem_cons.mp hm with heq | hm2
      · exact hc heq.symm
      · exact ih h hm2

theorem all_schemeChar_lower (l : Str) (h : l.all schemeChar = true) :
    (lowerStr l).all schemeChar = true := by
  rw [List.all_eq_true] at h ⊢
  intro x hx
  rcases List.mem_map.mp hx with ⟨y, hy, hyx⟩
  rw [← hyx]
  exact toLower_schemeChar y (h y hy)

theorem all_netlocChar_lower (l : Str) (h : l.all netlocChar = true) :
    (lowerStr l).all netlocChar = true := by
  rw [List.all_eq_true] at h ⊢
  intro x hx
  rcases List.mem_map.mp hx with ⟨y, hy, hyx⟩
  rw [← hyx]
  exact toLower_netlocChar y (h y hy)

theorem urlparseModel_stages (v : Str) :
    urlparseModel v =
      ⟨(parseScheme v).1,
       (netlocSplit (parseScheme v).2).1,
       (if (parseScheme v).1 ∈ uses_params then
          paramsSplit (querySplit (fragSplit (netlocSplit (parseScheme v).2).2).1).1
        else ((querySplit (fragSplit (netlocSplit (parseScheme v).2).2).1).1, [])).1,
       (if (parseScheme v).1 ∈ uses_params then
          paramsSplit (querySplit (fragSplit (netlocSplit (parseScheme v).2).2).1).1
        else ((querySplit (fragSplit (netlocSplit (parseScheme v).2).2).1).1, [])).2,
       (querySplit (fragSplit (netlocSplit (parseScheme v).2).2).1).2,
       (fragSplit (netlocSplit (parseScheme v).2).2).2⟩ := rfl

theorem schemeSplit_some_props (u s r : Str) (h : schemeSplit u = some (s, r)) :
    (∃ c0 cs, s = c0 :: cs ∧ c0.isAlpha = true) ∧ s.all schemeChar = true ∧
      lowerStr s = s ∧ (∀ x ∈ r, x ∈ u) := by
  unfold schemeSplit at h
  cases hsp : splitFirst? ':' u with
  | none => rw [hsp] at h; simp at h
  | some pr =>
    obtain ⟨pre, rest⟩ := pr
    rw [hsp] at h
    obtain ⟨hu, hni⟩ := splitFirst_eq_some ':' u pre rest hsp
    cases pre with
    | nil => simp at h
    | cons c0 cs =>
      dsimp only at h
      split at h
      · rename_i hcond
        simp only [Option.some.injEq, Prod.mk.injEq] at h
        obtain ⟨hs, hr⟩ := h
        subst hs; subst hr
        rw [Bool.and_eq_true] at hcond
        refine ⟨⟨c0.toLower, lowerStr cs, rfl, toLower_isAlpha c0 hcond.1⟩,
          all_schemeChar_lower _ hcond.2, lowerStr_idem _, ?_⟩
        intro x hx
        rw [hu]
        exact List.mem_append_right _ (List.mem_cons_of_mem _ hx)
      · simp at h

theorem schemeSplit_colon_notin (u s r : Str) (h : schemeSplit u = some (s, r)) :
    ':' ∉ s := by
  obtain ⟨-, hall, -, -⟩ := schemeSplit_some_props u s r h
  rw [List.all_eq_true] at hall
  intro hm
  have := hall ':' hm
  simp [schemeChar] at this

theorem schemeSplit_slash (v : Str) : schemeSplit ('/' :: v) = none := by
  unfold schemeSplit
  cases hsp : splitFirst? ':' ('/' :: v) with
  | none => rfl
  | some pr =>
    obtain ⟨pre, rest⟩ := pr
    obtain ⟨hu, hni⟩ := splitFirst_eq_some ':' ('/' :: v) pre rest hsp
    cases pre with
    | nil => rfl
    | cons c0 cs =>
      rw [List.cons_append] at hu
      have hc0 : c0 = '/' := ((List.cons.inj hu).1).symm
      dsimp only
      rw [if_neg]
      rw [hc0, Bool.and_eq_true]
      intro hco
      exact absurd hco.1 (by decide)

theorem parseScheme_cases (u : Str) :
    ((parseScheme u).1 = [] ∧ (parseScheme u).2 = u) ∨
      schemeSplit u = some ((parseScheme u).1, (parseScheme u).2) := by
  unfold parseScheme
  cases hss : schemeSplit u with
  | none => exact Or.inl ⟨rfl, rfl⟩
  | some pr =>
    obtain ⟨s, r⟩ := pr
    exact Or.inr rfl

theorem fragSplit_no (v : Str) (h : '#' ∉ v) : fragSplit v = (v, []) := by
  unfold fragSplit
  rw [splitFirst_eq_none '#' v h]

theorem fragSplit_cases (v : Str) :
    ('#' ∉ v ∧ (fragSplit v).1 = v ∧ (fragSplit v).2 = []) ∨
      (v = (fragSplit v).1 ++ '#' :: (fragSplit v).2 ∧ '#' ∉ (fragSplit v).1) := by
  unfold fragSplit
  cases hf : splitFirst? '#' v with
  | none => exact Or.inl ⟨splitFirst_none_mem '#' v hf, rfl, rfl⟩
  | some pr =>
    obtain ⟨a, b⟩ := pr
    exact Or.inr (splitFirst_eq_some '#' v a b hf)

theorem querySplit_no (v : Str) (h : '?' ∉ v) : querySplit v = (v, []) := by
  unfold querySplit
  rw [splitFirst_eq_none '?' v h]

theorem querySplit_cases (v : Str) :
    ('?' ∉ v ∧ (querySplit v).1 = v ∧ (querySplit v).2 = []) ∨
      (v = (querySplit v).1 ++ '?' :: (querySplit v).2 ∧ '?' ∉ (querySplit v).1) := by
  unfold querySplit
  cases hf : splitFirst? '?' v with
  | none => exact Or.inl ⟨splitFirst_none_mem '?' v hf, rfl, rfl⟩
  | some pr =>
    obtain ⟨a, b⟩ := pr
    exact Or.inr (splitFirst_eq_some '?' v a b hf)

theorem netlocSplit_cases (v : Str) :
    ((∀ r : Str, v ≠ '/' :: '/' :: r) ∧
      (netlocSplit v).1 = [] ∧ (netlocSplit v).2 = v) ∨
      ∃ rest, v = '/' :: '/' :: rest ∧
        (netlocSplit v).1 = rest.takeWhile netlocChar ∧
        (netlocSplit v).2 = rest.dropWhile netlocChar := by
  unfold netlocSplit
  split
  · rename_i rest
    exact Or.inr ⟨rest, rfl, rfl, rfl⟩
  · rename_i hne
    refine Or.inl ⟨?_, rfl, rfl⟩
    intro r hr
    exact hne r hr

theorem paramsSplit_no_semi (p : Str) (h : ';' ∉ p) : paramsSplit p = (p, []) := by
  unfold paramsSplit
  rw [if_neg h]

theorem parse_after_scheme (n p q : Str) (hn2 : n.all netlocChar = true)
    (p1 : Str) (hpeq : p = '/' :: p1) (hp2 : '#' ∉ p) (hp3 : '?' ∉ p)
    (hq : '#' ∉ q) :
    netlocSplit (('/' :: '/' :: (n ++ p)) ++ (if q ≠ [] then '?' :: q else []))
      = (n, p ++ (if q ≠ [] then '?' :: q else [])) ∧
    fragSplit (p ++ (if q ≠ [] then '?' :: q else []))
      = (p ++ (if q ≠ [] then '?' :: q else []), []) ∧
    querySplit (p ++ (if q ≠ [] then '?' :: q else [])) = (p, q) := by
  refine ⟨?_, ?_, ?_⟩
  · have hV : (('/' :: '/' :: (n ++ p)) ++ (if q ≠ [] then '?' :: q else []))
        = '/' :: '/' :: (n ++ (p ++ (if q ≠ [] then '?' :: q else []))) := by
      simp
    rw [hV]
    show ((n ++ (p ++ _)).takeWhile netlocChar, (n ++ (p ++ _)).dropWhile netlocChar) = _
    have hsh : p ++ (if q ≠ [] then '?' :: q else [])
        = '/' :: (p1 ++ (if q ≠ [] then '?' :: q else [])) := by
      rw [hpeq]; rfl
    rw [hsh]
    obtain ⟨ht, hd⟩ := takeWhile_append_cons netlocChar '/'
      (p1 ++ (if q ≠ [] then '?' :: q else [])) (by decide) n
      (fun x hx => List.all_eq_true.mp hn2 x hx)
    rw [ht, hd]
  · apply fragSplit_no
    intro hm
    rcases List.mem_append.mp hm with h1 | h1
    · exact hp2 h1
    · by_cases hqe : q = []
      · rw [if_neg (fun h => h hqe)] at h1
        exact List.not_mem_nil _ h1
      · rw [if_pos hqe] at h1
        rcases List.mem_cons.mp h1 with he | h2
        · exact absurd he (by decide)
        · exact hq h2
  · by_cases hqe : q = []
    · subst hqe
      rw [if_neg (fun h => h rfl), List.append_nil]
      exact querySplit_no p hp3
    · rw [if_pos hqe]
      unfold querySplit
      rw [splitFirst_append '?' q p hp3]

theorem parse_unparse (s n p q : Str)
    (hs : s = [] ∨ ((∃ c0 cs, s = c0 :: cs ∧ c0.isAlpha = true) ∧
        s.all schemeChar = true ∧ lowerStr s = s))
    (hn1 : n ≠ []) (hn2 : n.all netlocChar = true)
    (hp1 : ∃ p1, p = '/' :: p1) (hp2 : '#' ∉ p) (hp3 : '?' ∉ p) (hp4 : ';' ∉ p)
    (hq : '#' ∉ q) :
    urlparseModel (urlunparseModel ⟨s, n, p, [], q, []⟩) = ⟨s, n, p, [], q, []⟩ := by
  obtain ⟨p1, hpeq⟩ := hp1
  have hunp : urlunparseModel ⟨s, n, p, [], q, []⟩
      = (if s ≠ [] then s ++ ':' :: ('/' :: '/' :: (n ++ p))
          else ('/' :: '/' :: (n ++ p)))
        ++ (if q ≠ [] then '?' :: q else []) := by
    unfold urlunparseModel
    dsimp only
    have e0 : ((([] : Str) ≠ [])) = False := by simp
    simp only [e0, if_false]
    have e1 : ((p ≠ [] ∧ p.take 1 ≠ ['/'])) = False := by
      rw [hpeq]
      simp
    simp only [e1, if_false]
    simp only [eq_true hn1, true_or, if_true]
    by_cases hqe : q = []
    · subst hqe
      simp only [e0, if_false, List.append_nil]
    · simp only [eq_true hqe, if_true]
  obtain ⟨hnl, hfr, hqr⟩ := parse_after_scheme n p q hn2 p1 hpeq hp2 hp3 hq
  rcases hs with hse | ⟨⟨c0, cs, hsc, halpha⟩, hall, hlow⟩
  · subst hse
    rw [if_neg (fun h => h rfl)] at hunp
    have hscheme : schemeSplit (('/' :: '/' :: (n ++ p))
        ++ (if q ≠ [] then '?' :: q else [])) = none := by
      have hV : (('/' :: '/' :: (n ++ p)) ++ (if q ≠ [] then '?' :: q else []))
          = '/' :: ('/' :: ((n ++ p) ++ (if q ≠ [] then '?' :: q else []))) := by
        simp
      rw [hV]
      exact schemeSplit_slash _
    have hps : parseScheme (('/' :: '/' :: (n ++ p))
        ++ (if q ≠ [] then '?' :: q else []))
        = ([], ('/' :: '/' :: (n ++ p)) ++ (if q ≠ [] then '?' :: q else [])) := by
      unfold parseScheme
      rw [hscheme]
    rw [hunp, urlparseModel_stages, hps]
    dsimp only
    rw [hnl]
    dsimp only
    rw [hfr]
    dsimp only
    rw [hqr]
    dsimp only
    rw [if_pos (show ([] : Str) ∈ uses_params by decide),
      paramsSplit_no_semi p hp4]
  · have hsne : s ≠ [] := by rw [hsc]; exact List.cons_ne_nil _ _
    rw [if_pos hsne] at hunp
    have hnc : ':' ∉ s := by
      intro hm
      have := List.all_eq_true.mp hall ':' hm
      simp [schemeChar] at this
    have hassoc : (s ++ ':' :: ('/' :: '/' :: (n ++ p)))
          ++ (if q ≠ [] then '?' :: q else [])
        = s ++ ':' :: (('/' :: '/' :: (n ++ p))
          ++ (if q ≠ [] then '?' :: q else [])) := by
      simp
    have hsch : schemeSplit (s ++ ':' :: (('/' :: '/' :: (n ++ p))
          ++ (if q ≠ [] then '?' :: q else [])))
        = some (s, ('/' :: '/' :: (n ++ p))
          ++ (if q ≠ [] then '?' :: q else [])) := by
      unfold schemeSplit
      rw [splitFirst_append ':' _ s hnc, hsc]
      dsimp only
      rw [if_pos (show (c0.isAlpha && (c0 :: cs).all schemeChar) = true by
        rw [Bool.and_eq_true]
        exact ⟨halpha, hsc ▸ hall⟩)]
      rw [← hsc, hlow]
    have hps : parseScheme (s ++ ':' :: (('/' :: '/' :: (n ++ p))
          ++ (if q ≠ [] then '?' :: q else [])))
        = (s, ('/' :: '/' :: (n ++ p)) ++ (if q ≠ [] then '?' :: q else [])) := by
      unfold parseScheme
      rw [hsch]
    rw [hunp, hassoc, urlparseModel_stages, hps]
    dsimp only
    rw [hnl]
    dsimp only
    rw [hfr]
    dsimp only
    rw [hqr]
    dsimp only
    by_cases hup : s ∈ uses_params
    · rw [if_pos hup, paramsSplit_no_semi p hp4]
    · rw [if_neg hup]

theorem rstrip_slash_single : rstripSlash ['/'] = [] := by decide

theorem normalize_idem (u : Str) (h1 : ';' ∉ u)
    (h2 : (urlparseModel u).netloc ≠ []) :
    normalize_url (normalize_url u) = normalize_url u := by
  have hA := parseScheme_cases u
  have sub1 : ∀ x ∈ (parseScheme u).2, x ∈ u := by
    rcases hA with ⟨-, h2a⟩ | hsome
    · rw [h2a]; exact fun x hx => hx
    · exact (schemeSplit_some_props u _ _ hsome).2.2.2
  rcases netlocSplit_cases (parseScheme u).2 with ⟨-, hn0, -⟩ | ⟨rest, hrest, hnl1, hnl2⟩
  · exact absurd hn0 h2
  · have hnall : (netlocSplit (parseScheme u).2).1.all netlocChar = true := by
      rw [hnl1, List.all_eq_true]
      exact fun x hx => List.mem_takeWhile_imp hx
    have sub2 : ∀ x ∈ (netlocSplit (parseScheme u).2).2, x ∈ u := by
      intro x hx
      rw [hnl2] at hx
      have hxr : x ∈ rest := (List.dropWhile_sublist _).subset hx
      apply sub1
      rw [hrest]
      exact List.mem_cons_of_mem _ (List.mem_cons_of_mem _ hxr)
    have hfrc := fragSplit_cases (netlocSplit (parseScheme u).2).2
    have hfr3 : '#' ∉ (fragSplit (netlocSplit (parseScheme u).2).2).1 := by
      rcases hfrc with ⟨hno, he, -⟩ | ⟨-, hni⟩
      · rw [he]; exact hno
      · exact hni
    have hfr_pre : ∃ t, (netlocSplit (parseScheme u).2).2
        = (fragSplit (netlocSplit (parseScheme u).2).2).1 ++ t := by
      rcases hfrc with ⟨-, he, -⟩ | ⟨heq, -⟩
      · exact ⟨[], by rw [he, List.append_nil]⟩
      · exact ⟨_, heq⟩
    have sub3 : ∀ x ∈ (fragSplit (netlocSplit (parseScheme u).2).2).1, x ∈ u := by
      intro x hx
      obtain ⟨t, ht⟩ := hfr_pre
      exact sub2 x (ht ▸ List.mem_append_left _ hx)
    have hqc := querySplit_cases (fragSplit (netlocSplit (parseScheme u).2).2).1
    have hq4 : '?' ∉ (querySplit (fragSplit (netlocSplit (parseScheme u).2).2).1).1 := by
      rcases hqc with ⟨hno, he, -⟩ | ⟨-, hni⟩
      · rw [he]; exact hno
      · exact hni
    have hq_pre : ∃ t, (fragSplit (netlocSplit (parseScheme u).2).2).1
        = (querySplit (fragSplit (netlocSplit (parseScheme u).2).2).1).1 ++ t := by
      rcases hqc with ⟨-, he, -⟩ | ⟨heq, -⟩
      · exact ⟨[], by rw [he, List.append_nil]⟩
      · exact ⟨_, heq⟩
    have sub4 : ∀ x ∈ (querySplit (fragSplit (netlocSplit (parseScheme u).2).2).1).1,
        x ∈ u := by
      intro x hx
      obtain ⟨t, ht⟩ := hq_pre
      exact sub3 x (ht ▸ List.mem_append_left _ hx)
    have hh4 : '#' ∉ (querySplit (fragSplit (netlocSplit (parseScheme u).2).2).1).1 := by
      intro hm
      obtain ⟨t, ht⟩ := hq_pre
      exact hfr3 (ht ▸ List.mem_append_left _ hm)
    have hqnohash : '#' ∉ (querySplit (fragSplit (netlocSplit (parseScheme u).2).2).1).2 := by
      rcases hqc with ⟨-, -, he⟩ | ⟨heq, -⟩
      · rw [he]; exact List.not_mem_nil _
      · intro hm
        exact hfr3 (heq ▸ List.mem_append_right _ (List.mem_cons_of_mem _ hm))
    have hsemi4 : ';' ∉ (querySplit (fragSplit (netlocSplit (parseScheme u).2).2).1).1 :=
      fun hm => h1 (sub4 _ hm)
    have hpp : (if (parseScheme u).1 ∈ uses_params
        then paramsSplit (querySplit (fragSplit (netlocSplit (parseScheme u).2).2).1).1
        else ((querySplit (fragSplit (netlocSplit (parseScheme u).2).2).1).1, []))
        = ((querySplit (fragSplit (netlocSplit (parseScheme u).2).2).1).1, []) := by
      by_cases hup : (parseScheme u).1 ∈ uses_params
      · rw [if_pos hup, paramsSplit_no_semi _ hsemi4]
      · rw [if_neg hup]
    have hpshape : (querySplit (fragSplit (netlocSplit (parseScheme u).2).2).1).1 = [] ∨
        ∃ t, (querySplit (fragSplit (netlocSplit (parseScheme u).2).2).1).1 = '/' :: t := by
      by_cases hu4 : (querySplit (fragSplit (netlocSplit (parseScheme u).2).2).1).1 = []
      · exact Or.inl hu4
      · right
        obtain ⟨c4, r4, hc4⟩ := List.exists_cons_of_ne_nil hu4
        obtain ⟨t4, ht4⟩ := hq_pre
        obtain ⟨t3, ht3⟩ := hfr_pre
        have hu2eq : (netlocSplit (parseScheme u).2).2 = c4 :: (r4 ++ t4 ++ t3) := by
          rw [ht3, ht4, hc4]
          simp
        rcases dropWhile_shape netlocChar rest with hsh | ⟨c2, r2, hsh, hc2⟩
        · rw [hnl2, hsh] at hu2eq
          simp at hu2eq
        · rw [hnl2, hsh] at hu2eq
          have hceq : c2 = c4 := (List.cons.inj hu2eq).1
          rw [← hceq] at hc4
          have : c2 = '/' ∨ c2 = '?' ∨ c2 = '#' := by
            by_contra hcon
            push_neg at hcon
            rw [show netlocChar c2 = true by
              simp [netlocChar, hcon.1, hcon.2.1, hcon.2.2]] at hc2
            simp at hc2
          rcases this with h | h | h
          · exact ⟨r4, by rw [hc4, h]⟩
          · exact absurd (by rw [hc4, h]; exact List.mem_cons_self _ _) hq4
          · exact absurd (by rw [hc4, h]; exact List.mem_cons_self _ _) hh4
    have hs' : lowerStr (parseScheme u).1 = [] ∨
        ((∃ c0 cs, lowerStr (parseScheme u).1 = c0 :: cs ∧ c0.isAlpha = true) ∧
          (lowerStr (parseScheme u).1).all schemeChar = true ∧
          lowerStr (lowerStr (parseScheme u).1) = lowerStr (parseScheme u).1) := by
      rcases hA with ⟨hs0, -⟩ | hsome
      · left; rw [hs0]; rfl
      · obtain ⟨⟨c0, cs, hsc, halp⟩, hall, hlow, -⟩ :=
          schemeSplit_some_props u _ _ hsome
        right
        rw [hlow]
        exact ⟨⟨c0, cs, hsc, halp⟩, hall, hlow⟩
    have hn1' : lowerStr (netlocSplit (parseScheme u).2).1 ≠ [] := by
      intro hl
      exact h2 (List.map_eq_nil_iff.mp hl)
    have hn2' := all_netlocChar_lower _ hnall
    have hp1' : ∃ p1, (if rstripSlash (querySplit (fragSplit
          (netlocSplit (parseScheme u).2).2).1).1 = [] then ['/']
        else rstripSlash (querySplit (fragSplit
          (netlocSplit (parseScheme u).2).2).1).1) = '/' :: p1 := by
      by_cases hrs : rstripSlash (querySplit (fragSplit
          (netlocSplit (parseScheme u).2).2).1).1 = []
      · rw [if_pos hrs]; exact ⟨[], rfl⟩
      · rw [if_neg hrs]
        rcases hpshape with he | ⟨t, ht⟩
        · rw [he] at hrs
          exact absurd rfl hrs
        · rw [ht]
          rcases rstrip_slash_head t with hz | ⟨q1, hz⟩
          · rw [ht] at hrs
            exact absurd hz hrs
          · exact ⟨q1, hz⟩
    have hmemP : ∀ x ∈ (if rstripSlash (querySplit (fragSplit
          (netlocSplit (parseScheme u).2).2).1).1 = [] then (['/'] : Str)
        else rstripSlash (querySplit (fragSplit
          (netlocSplit (parseScheme u).2).2).1).1),
        x = '/' ∨ x ∈ (querySplit (fragSplit (netlocSplit (parseScheme u).2).2).1).1 := by
      intro x hx
      by_cases hrs : rstripSlash (querySplit (fragSplit
          (netlocSplit (parseScheme u).2).2).1).1 = []
      · rw [if_pos hrs] at hx
        exact Or.inl (List.mem_singleton.mp hx)
      · rw [if_neg hrs] at hx
        exact Or.inr (rstrip_sub _ x hx)
    have hp2' : '#' ∉ (if rstripSlash (querySplit (fragSplit
          (netlocSplit (parseScheme u).2).2).1).1 = [] then (['/'] : Str)
        else rstripSlash (querySplit (fragSplit
          (netlocSplit (parseScheme u).2).2).1).1) := by
      intro hm
      rcases hmemP _ hm with he | hmem
      · exact absurd he (by decide)
      · exact hh4 hmem
    have hp3' : '?' ∉ (if rstripSlash (querySplit (fragSplit
          (netlocSplit (parseScheme u).2).2).1).1 = [] then (['/'] : Str)
        else rstripSlash (querySplit (fragSplit
          (netlocSplit (parseScheme u).2).2).1).1) := by
      intro hm
      rcases hmemP _ hm with he | hmem
      · exact absurd he (by decide)
      · exact hq4 hmem
    have hp4' : ';' ∉ (if rstripSlash (querySplit (fragSplit
          (netlocSplit (parseScheme u).2).2).1).1 = [] then (['/'] : Str)
        else rstripSlash (querySplit (fragSplit
          (netlocSplit (parseScheme u).2).2).1).1) := by
      intro hm
      rcases hmemP _ hm with he | hmem
      · exact absurd he (by decide)
      · exact hsemi4 hmem
    have hround := parse_unparse (lowerStr (parseScheme u).1)
      (lowerStr (netlocSplit (parseScheme u).2).1)
      (if rstripSlash (querySplit (fragSplit
          (netlocSplit (parseScheme u).2).2).1).1 = [] then ['/']
        else rstripSlash (querySplit (fragSplit
          (netlocSplit (parseScheme u).2).2).1).1)
      ((querySplit (fragSplit (netlocSplit (parseScheme u).2).2).1).2)
      hs' hn1' hn2' hp1' hp2' hp3' hp4' hqnohash
    have hform : normComps (urlparseModel u) =
        ⟨lowerStr (parseScheme u).1, lowerStr (netlocSplit (parseScheme u).2).1,
          (if rstripSlash (querySplit (fragSplit
              (netlocSplit (parseScheme u).2).2).1).1 = [] then ['/']
            else rstripSlash (querySplit (fragSplit
              (netlocSplit (parseScheme u).2).2).1).1),
          [], (querySplit (fragSplit (netlocSplit (parseScheme u).2).2).1).2, []⟩ := by
      rw [urlparseModel_stages u]
      unfold normComps
      dsimp only
      rw [hpp]
    have hfix : normComps
        ⟨lowerStr (parseScheme u).1, lowerStr (netlocSplit (parseScheme u).2).1,
          (if rstripSlash (querySplit (fragSplit
              (netlocSplit (parseScheme u).2).2).1).1 = [] then ['/']
            else rstripSlash (querySplit (fragSplit
              (netlocSplit (parseScheme u).2).2).1).1),
          [], (querySplit (fragSplit (netlocSplit (parseScheme u).2).2).1).2, []⟩ =
        ⟨lowerStr (parseScheme u).1, lowerStr (netlocSplit (parseScheme u).2).1,
          (if rstripSlash (querySplit (fragSplit
              (netlocSplit (parseScheme u).2).2).1).1 = [] then ['/']
            else rstripSlash (querySplit (fragSplit
              (netlocSplit (parseScheme u).2).2).1).1),
          [], (querySplit (fragSplit (netlocSplit (parseScheme u).2).2).1).2, []⟩ := by
      unfold normComps
      dsimp only
      rw [lowerStr_idem, lowerStr_idem]
      by_cases hrs : rstripSlash (querySplit (fragSplit
          (netlocSplit (parseScheme u).2).2).1).1 = []
      · rw [if_pos hrs, rstrip_slash_single, if_pos rfl]
      · rw [if_neg hrs, rstrip_idem, if_neg hrs]
    show urlunparseModel (normComps (urlparseModel
      (urlunparseModel (normComps (urlparseModel u)))))
      = urlunparseModel (normComps (urlparseModel u))
    rw [hform, hround, hfix]

theorem splitFirst_append_left (t : Char) (b : Str) :
    ∀ a : Str, t ∉ a →
      splitFirst? t (a ++ b) = (splitFirst? t b).map (fun p => (a ++ p.1, p.2)) := by
  intro a
  induction a with
  | nil =>
    intro _
    simp only [List.nil_append]
    cases hb : splitFirst? t b with
    | none => rfl
    | some p => rfl
  | cons c s ih =>
    intro h
    have hc : ¬c = t := fun he => h (he ▸ List.mem_cons_self _ _)
    have hs : t ∉ s := fun hm => h (List.mem_cons_of_mem _ hm)
    simp only [List.cons_append, splitFirst?, if_neg hc, List.append_eq, ih hs]
    cases hb : splitFirst? t b with
    | none => rfl
    | some p => rfl

theorem schemeSplit_append (u w : Str)
    (hw : ∀ x y, splitFirst? ':' w = some (x, y) →
      ∃ c t, x = c :: t ∧ schemeChar c = false) :
    (parseScheme (u ++ w)).1 = (parseScheme u).1 ∧
    (parseScheme (u ++ w)).2 = (parseScheme u).2 ++ w := by
  cases hsp : splitFirst? ':' u with
  | none =>
    have hnm : ':' ∉ u := splitFirst_none_mem ':' u hsp
    have hul : splitFirst? ':' (u ++ w)
        = (splitFirst? ':' w).map (fun p => (u ++ p.1, p.2)) :=
      splitFirst_append_left ':' w u hnm
    have hps : parseScheme u = ([], u) := by
      unfold parseScheme schemeSplit
      rw [hsp]
    cases hspw : splitFirst? ':' w with
    | none =>
      have : parseScheme (u ++ w) = ([], u ++ w) := by
        unfold parseScheme schemeSplit
        rw [hul, hspw]
        rfl
      rw [this, hps]
      exact ⟨rfl, rfl⟩
    | some pr =>
      obtain ⟨x, y⟩ := pr
      obtain ⟨cbad, tbad, hx, hbad⟩ := hw x y hspw
      have hmem : cbad ∈ u ++ x := by
        rw [hx]
        exact List.mem_append_right _ (List.mem_cons_self _ _)
      have hne2 : u ++ x ≠ [] := by
        rw [hx]
        intro hnil
        rcases List.append_eq_nil.mp hnil with ⟨-, h2⟩
        exact List.cons_ne_nil _ _ h2
      obtain ⟨ch, ct, hct⟩ := List.exists_cons_of_ne_nil hne2
      have hcond : ¬((ch.isAlpha && (ch :: ct).all schemeChar) = true) := by
        intro hco
        rw [Bool.and_eq_true] at hco
        have hall := List.all_eq_true.mp hco.2 cbad (hct ▸ hmem)
        rw [hbad] at hall
        simp at hall
      have : parseScheme (u ++ w) = ([], u ++ w) := by
        unfold parseScheme schemeSplit
        rw [hul, hspw]
        simp only [Option.map_some']
        rw [hct]
        dsimp only
        rw [if_neg hcond]
      rw [this, hps]
      exact ⟨rfl, rfl⟩
  | some pr =>
    obtain ⟨pre, rest⟩ := pr
    obtain ⟨hu, hni⟩ := splitFirst_eq_some ':' u pre rest hsp
    have hul : splitFirst? ':' (u ++ w) = some (pre, rest ++ w) := by
      rw [hu, List.append_assoc, List.cons_append]
      exact splitFirst_append ':' (rest ++ w) pre hni
    cases pre with
    | nil =>
      have h1 : parseScheme (u ++ w) = ([], u ++ w) := by
        unfold parseScheme schemeSplit
        rw [hul]
      have h2 : parseScheme u = ([], u) := by
        unfold parseScheme schemeSplit
        rw [hsp]
      rw [h1, h2]
      exact ⟨rfl, rfl⟩
    | cons c0 cs =>
      by_cases hcond : (c0.isAlpha && (c0 :: cs).all schemeChar) = true
      · have h1 : parseScheme (u ++ w) = (lowerStr (c0 :: cs), rest ++ w) := by
          unfold parseScheme schemeSplit
          rw [hul]
          dsimp only
          rw [if_pos hcond]
        have h2 : parseScheme u = (lowerStr (c0 :: cs), rest) := by
          unfold parseScheme schemeSplit
          rw [hsp]
          dsimp only
          rw [if_pos hcond]
        rw [h1, h2]
        exact ⟨rfl, rfl⟩
      · have h1 : parseScheme (u ++ w) = ([], u ++ w) := by
          unfold parseScheme schemeSplit
          rw [hul]
          dsimp only
          rw [if_neg hcond]
        have h2 : parseScheme u = ([], u) := by
          unfold parseScheme schemeSplit
          rw [hsp]
          dsimp only
          rw [if_neg hcond]
        rw [h1, h2]
        exact ⟨rfl, rfl⟩

theorem parseScheme_hash (u f : Str) :
    (parseScheme (u ++ '#' :: f)).1 = (parseScheme u).1 ∧
    (parseScheme (u ++ '#' :: f)).2 = (parseScheme u).2 ++ '#' :: f := by
  apply schemeSplit_append
  intro x y h
  simp only [splitFirst?, if_neg (show ¬('#' = ':') by decide)] at h
  cases hf : splitFirst? ':' f with
  | none => rw [hf] at h; simp at h
  | some p =>
    rw [hf] at h
    simp only [Option.map_some', Option.some.injEq, Prod.mk.injEq] at h
    exact ⟨'#', p.1, h.1.symm, by decide⟩

theorem parseScheme_slash (u : Str) :
    (parseScheme (u ++ ['/'])).1 = (parseScheme u).1 ∧
    (parseScheme (u ++ ['/'])).2 = (parseScheme u).2 ++ ['/'] := by
  apply schemeSplit_append
  intro x y h
  simp [splitFirst?, show ¬('/' = ':') by decide] at h

theorem netlocSplit_slash2 (X : Str) :
    netlocSplit ('/' :: '/' :: X)
      = (X.takeWhile netlocChar, X.dropWhile netlocChar) := rfl

theorem takeWhile_append_stop (rest w : Str) (cw : Char) (tw : Str)
    (hw : w = cw :: tw) (hcw : netlocChar cw = false) :
    (rest ++ w).takeWhile netlocChar = rest.takeWhile netlocChar ∧
    (rest ++ w).dropWhile netlocChar = rest.dropWhile netlocChar ++ w := by
  rcases dropWhile_shape netlocChar rest with hdn | ⟨c2, r2, hdn, hc2⟩
  · have hre : rest.takeWhile netlocChar = rest := by
      have hh := List.takeWhile_append_dropWhile (p := netlocChar) (l := rest)
      rw [hdn, List.append_nil] at hh
      exact hh
    have hall : ∀ x ∈ rest, netlocChar x = true := by
      intro x hx
      rw [← hre] at hx
      exact List.mem_takeWhile_imp hx
    obtain ⟨ht, hd⟩ := takeWhile_append_cons netlocChar cw tw hcw rest hall
    constructor
    · rw [hw, ht, hre]
    · rw [hw, hd, hdn, List.nil_append]
  · have hsplit := List.takeWhile_append_dropWhile (p := netlocChar) (l := rest)
    rw [hdn] at hsplit
    have hallt : ∀ x ∈ rest.takeWhile netlocChar, netlocChar x = true :=
      fun x hx => List.mem_takeWhile_imp hx
    have hrw : rest ++ w = rest.takeWhile netlocChar ++ c2 :: (r2 ++ w) := by
      conv_lhs => rw [← hsplit]
      simp
    obtain ⟨ht, hd⟩ := takeWhile_append_cons netlocChar c2 (r2 ++ w) hc2
      (rest.takeWhile netlocChar) hallt
    constructor
    · rw [hrw, ht]
    · rw [hrw, hd, hdn]
      simp

theorem parseScheme_sub (u : Str) : ∀ x ∈ (parseScheme u).2, x ∈ u := by
  rcases parseScheme_cases u with ⟨-, h2a⟩ | hsome
  · rw [h2a]; exact fun x hx => hx
  · exact (schemeSplit_some_props u _ _ hsome).2.2.2

theorem netlocSplit_sub (v : Str) : ∀ x ∈ (netlocSplit v).2, x ∈ v := by
  rcases netlocSplit_cases v with ⟨-, -, h2⟩ | ⟨rest, hrest, -, hn2⟩
  · rw [h2]; exact fun x hx => hx
  · intro x hx
    rw [hn2] at hx
    rw [hrest]
    exact List.mem_cons_of_mem _
      (List.mem_cons_of_mem _ ((List.dropWhile_sublist _).subset hx))

theorem netlocSplit_hash (v f : Str) :
    (netlocSplit (v ++ '#' :: f)).1 = (netlocSplit v).1 ∧
    (netlocSplit (v ++ '#' :: f)).2 = (netlocSplit v).2 ++ '#' :: f := by
  rcases netlocSplit_cases v with ⟨hne, h1, h2⟩ | ⟨rest, hrest, hn1, hn2⟩
  · rcases netlocSplit_cases (v ++ '#' :: f) with ⟨-, g1, g2⟩ | ⟨r, hr, -, -⟩
    · rw [g1, g2, h1, h2]
      exact ⟨rfl, rfl⟩
    · exfalso
      cases v with
      | nil => simp at hr
      | cons a t1 =>
        rw [List.cons_append] at hr
        obtain ⟨ha, ht⟩ := List.cons.inj hr
        cases t1 with
        | nil => simp at ht
        | cons b t2 =>
          rw [List.cons_append] at ht
          obtain ⟨hb, -⟩ := List.cons.inj ht
          exact hne t2 (by rw [ha, hb])
  · have hV : v ++ '#' :: f = '/' :: '/' :: (rest ++ '#' :: f) := by
      rw [hrest]; simp
    obtain ⟨ht, hd⟩ := takeWhile_append_stop rest ('#' :: f) '#' f rfl (by decide)
    rw [hV, netlocSplit_slash2, hn1, hn2]
    exact ⟨ht, hd⟩

theorem rstrip_append_slash (p : Str) : rstripSlash (p ++ ['/']) = rstripSlash p := by
  unfold rstripSlash
  rw [List.reverse_append]
  simp [List.dropWhile_cons]

/-- Fragment invariance: appending a fragment to a fragment-free URL does not
change its normalization. -/
theorem normalize_fragment (u f : Str) (hu : '#' ∉ u) :
    normalize_url (u ++ '#' :: f) = normalize_url u := by
  obtain ⟨hps1, hps2⟩ := parseScheme_hash u f
  obtain ⟨hnl1, hnl2⟩ := netlocSplit_hash (parseScheme u).2 f
  have h2no : '#' ∉ (netlocSplit (parseScheme u).2).2 :=
    fun hm => hu (parseScheme_sub u _ (netlocSplit_sub _ _ hm))
  have hfr_orig : fragSplit (netlocSplit (parseScheme u).2).2
      = ((netlocSplit (parseScheme u).2).2, []) := fragSplit_no _ h2no
  have hfr_new : fragSplit ((netlocSplit (parseScheme u).2).2 ++ '#' :: f)
      = ((netlocSplit (parseScheme u).2).2, f) := by
    unfold fragSplit
    rw [splitFirst_append '#' f _ h2no]
  unfold normalize_url
  rw [urlparseModel_stages (u ++ '#' :: f), urlparseModel_stages u]
  rw [hps1, hps2, hnl1, hnl2, hfr_new, hfr_orig]
  rfl

/-- Trailing-slash invariance for clean netloc URLs. -/
theorem normalize_slash (u : Str) (h1 : '#' ∉ u) (h2 : '?' ∉ u) (h3 : ';' ∉ u)
    (h4 : (urlparseModel u).netloc ≠ []) :
    normalize_url (u ++ ['/']) = normalize_url u := by
  obtain ⟨hps1, hps2⟩ := parseScheme_slash u
  rcases netlocSplit_cases (parseScheme u).2 with ⟨-, hn0, -⟩ | ⟨rest, hrest, hn1, hn2⟩
  · exact absurd hn0 h4
  · have hV : (parseScheme u).2 ++ ['/'] = '/' :: '/' :: (rest ++ ['/']) := by
      rw [hrest]; simp
    obtain ⟨ht, hd⟩ := takeWhile_append_stop rest ['/'] '/' [] rfl (by decide)
    have hu2h : '#' ∉ List.dropWhile netlocChar rest := by
      rw [← hn2]
      exact fun hm => h1 (parseScheme_sub u _ (netlocSplit_sub _ _ hm))
    have hu2q : '?' ∉ List.dropWhile netlocChar rest := by
      rw [← hn2]
      exact fun hm => h2 (parseScheme_sub u _ (netlocSplit_sub _ _ hm))
    have hu2s : ';' ∉ List.dropWhile netlocChar rest := by
      rw [← hn2]
      exact fun hm => h3 (parseScheme_sub u _ (netlocSplit_sub _ _ hm))
    have hmem1 : '#' ∉ List.dropWhile netlocChar rest ++ ['/'] := by
      intro hm
      rcases List.mem_append.mp hm with hx | hx
      · exact hu2h hx
      · exact absurd (List.mem_singleton.mp hx) (by decide)
    have hmemq : '?' ∉ List.dropWhile netlocChar rest ++ ['/'] := by
      intro hm
      rcases List.mem_append.mp hm with hx | hx
      · exact hu2q hx
      · exact absurd (List.mem_singleton.mp hx) (by decide)
    have hmems : ';' ∉ List.dropWhile netlocChar rest ++ ['/'] := by
      intro hm
      rcases List.mem_append.mp hm with hx | hx
      · exact hu2s hx
      · exact absurd (List.mem_singleton.mp hx) (by decide)
    unfold normalize_url
    rw [urlparseModel_stages (u ++ ['/']), urlparseModel_stages u]
    rw [hps1, hps2, hV, netlocSplit_slash2, hn1, hn2]
    dsimp only
    rw [ht, hd]
    rw [fragSplit_no _ hmem1, fragSplit_no _ hu2h]
    dsimp only
    rw [querySplit_no _ hmemq, querySplit_no _ hu2q]
    dsimp only
    have hpp1 : (if (parseScheme u).1 ∈ uses_params
        then paramsSplit (List.dropWhile netlocChar rest ++ ['/'])
        else (List.dropWhile netlocChar rest ++ ['/'], []))
        = (List.dropWhile netlocChar rest ++ ['/'], []) := by
      by_cases hup : (parseScheme u).1 ∈ uses_params
      · rw [if_pos hup, paramsSplit_no_semi _ hmems]
      · rw [if_neg hup]
    have hpp0 : (if (parseScheme u).1 ∈ uses_params
        then paramsSplit (List.dropWhile netlocChar rest)
        else (List.dropWhile netlocChar rest, []))
        = (List.dropWhile netlocChar rest, []) := by
      by_cases hup : (parseScheme u).1 ∈ uses_params
      · rw [if_pos hup, paramsSplit_no_semi _ hu2s]
      · rw [if_neg hup]
    rw [hpp1, hpp0]
    unfold normComps
    dsimp only
    rw [rstrip_append_slash]

/-- **C4** (amended).  `normalize_url` is a pure function but NOT idempotent
on all URLs (see the counterexample).  What holds: (1) idempotence on every
URL free of `';'` (no path parameters) whose parse yields a nonempty netloc;
(2) fragment invariance — appending `'#'`+fragment to a fragment-free URL
does not change the normalization; (3) trailing-slash invariance for URLs
free of `'#'`, `'?'` and `';'` with a nonempty netloc; (4) case differences
in scheme or netloc are erased: components equal up to `lower()` of scheme
and netloc normalize and unparse identically. -/
theorem c4_normalization_properties (u f : Str) (c : UrlComps) (s2 n2 : Str) :
    (';' ∉ u → (urlparseModel u).netloc ≠ [] →
      normalize_url (normalize_url u) = normalize_url u) ∧
    ('#' ∉ u → normalize_url (u ++ '#' :: f) = normalize_url u) ∧
    ('#' ∉ u → '?' ∉ u → ';' ∉ u → (urlparseModel u).netloc ≠ [] →
      normalize_url (u ++ ['/']) = normalize_url u) ∧
    (lowerStr s2 = lowerStr c.scheme → lowerStr n2 = lowerStr c.netloc →
      urlunparseModel (normComps ⟨s2, n2, c.path, c.params, c.query, c.fragment⟩)
        = urlunparseModel (normComps c)) := by
  refine ⟨normalize_idem u, normalize_fragment u f, normalize_slash u, ?_⟩
  intro hsl hnl
  unfold normComps
  dsimp only
  rw [hsl, hnl]

/-- **C4, counterexample.**  `normalize_url` is not idempotent for all URLs,
refuting the unconditional idempotence claim: `"http://h/a/;b/"` normalizes
to `"http://h/a/;b"` and then again to `"http://h/a;b"` (the trailing-slash
strip moves the `';'` before the last `'/'`, so `_splitparams` splits on the
second pass), and the netloc-less `"////x"` normalizes to `"//x"` and then to
`"//x/"` (the empty-path rule fires only on the second pass). -/
theorem c4_idempotence_counterexample :
    normalize_url (normalize_url "http://h/a/;b/".data)
      ≠ normalize_url "http://h/a/;b/".data ∧
    normalize_url (normalize_url "////x".data) ≠ normalize_url "////x".data := by
  exact ⟨by decide, by decide⟩

/-- **C4, witness.**  The amended properties at concrete inputs. -/
theorem c4_normalization_properties_witness :
    (';' ∉ "http://Host.com/a".data ∧
      (urlparseModel "http://Host.com/a".data).netloc ≠ [] ∧
      normalize_url (normalize_url "http://Host.com/a".data)
        = normalize_url "http://Host.com/a".data) ∧
    ('#' ∉ "http://Host.com/a".data ∧
      normalize_url ("http://Host.com/a".data ++ '#' :: "sec".data)
        = normalize_url "http://Host.com/a".data) ∧
    (normalize_url ("http://Host.com/a".data ++ ['/'])
      = normalize_url "http://Host.com/a".data) ∧
    (urlunparseModel (normComps
        ⟨"http".data, "ex.com".data, "/a".data, [], [], []⟩)
      = urlunparseModel (normComps
        ⟨"HTTP".data, "EX.com".data, "/a".data, [], [], []⟩)) := by
  have h := c4_normalization_properties "http://Host.com/a".data "sec".data
    ⟨"HTTP".data, "EX.com".data, "/a".data, [], [], []⟩ "http".data "ex.com".data
  exact ⟨⟨by decide, by decide, h.1 (by decide) (by decide)⟩,
    ⟨by decide, h.2.1 (by decide)⟩,
    h.2.2.1 (by decide) (by decide) (by decide) (by decide),
    h.2.2.2 (by decide) (by decide)⟩

end Chatbot
